import Mathlib

/-!
Verification of the ts-parser-thing language core against its specification.

This file shallowly embeds the parts of the implementation that the claims
touch:

* the AST module (`ast.ts`): expressions, lambda parameters, operator
  placeholders, priorities, and the captured-name analysis (`makeLambda`,
  `getCapturedNames`);
* the shunting-yard operator resolver (`shunting-yard.ts`);
* the lexer (`lexer.ts`), including a faithful model of the JavaScript
  regular-expression alternation it is built on;
* the `Unit` dimensional arithmetic (`units.ts`);
* the runtime data model and evaluator.  The current `runtime.ts` is not
  among the provided sources (only its callers, older revisions, and tests
  are), so the evaluator core is modelled from the specification, §3, §4.6
  and §9; the prelude bodies (`interpreter.ts`) are translated from the
  source.

Machine numbers: the implementation uses exact decimal (`big.js`) and exact
rational (`fraction.js`) arithmetic; both embed into `ℚ`.  The few places
where the implementation falls back to IEEE floating point (`Math.pow`) or
rounded decimal division are abstracted as explicit function parameters,
collected in `ExtSem`, and theorems quantify over them.
-/

namespace TsParserThing

/-! ## AST (`ast.ts`, provided as `src/unnamed/part_012`) -/

/-- Associativity direction of an operator priority. -/
inductive Dir where
  | left
  | right
deriving DecidableEq, Repr

/-- `Priority = {strength: number, direction: 'left' | 'right'}`. -/
structure Priority where
  strength : Int
  direction : Dir
deriving DecidableEq, Repr

/-- `LamArg`: a lambda parameter pattern, `ArgSingle` or `ArgTable`. -/
inductive LamArg where
  | argSingle (name : String)
  | argTable (entries : List (String × LamArg))

/-- `Expr`: the expression AST.  A `lam` node stores its parameter, body and
the `capturedNames` field exactly as the `Lambda` record does. -/
inductive Expr where
  | name (s : String)
  | app (fn arg : Expr)
  | dec (value : ℚ)
  | str (s : String)
  | symbol (s : String)
  | table (pairs : List (String × Expr))
  | cond (i t e : Expr)
  | lam (arg : LamArg) (expr : Expr) (capturedNames : List String)

/-- Operator placeholder used during parsing: `InfixOp(string)` or
`ExprOp(Expr)`. -/
inductive Op where
  | infixOp (name : String)
  | exprOp (expr : Expr)

/-- `Ops = {initial: Expr, chunks: [Op, Expr][]}`. -/
structure Ops where
  initial : Expr
  chunks : List (Op × Expr)

/-- `ParseOptions`; `priorities` is a string-keyed record, embedded as an
association list. -/
structure ParseOptions where
  priorities : List (String × Priority)
  backtickPriority : Priority
  defaultPriority : Priority

/-- `extractNamesFromArg`: all names bound by a parameter pattern. -/
def extractNamesFromArg : LamArg → List String
  | .argSingle name => [name]
  | .argTable entries => entries.attach.flatMap fun p => extractNamesFromArg p.1.2
decreasing_by
  obtain ⟨⟨k, sub⟩, hmem⟩ := p
  have h := List.sizeOf_lt_of_mem hmem
  simp at h ⊢
  omega

/-- `_getCapturedNames(expr, exclude)`: free-name occurrences of `expr`, in
traversal order, with `exclude` filtered out; a nested `Lam` contributes its
stored `capturedNames` filtered against `exclude`. -/
def getCapturedNamesRaw : Expr → List String → List String
  | .name n, exclude => if n ∈ exclude then [] else [n]
  | .app fn arg, exclude =>
      getCapturedNamesRaw fn exclude ++ getCapturedNamesRaw arg exclude
  | .dec _, _ => []
  | .str _, _ => []
  | .symbol _, _ => []
  | .table pairs, exclude =>
      pairs.attach.flatMap fun p => getCapturedNamesRaw p.1.2 exclude
  | .cond i t e, exclude =>
      getCapturedNamesRaw i exclude ++ getCapturedNamesRaw t exclude
        ++ getCapturedNamesRaw e exclude
  | .lam _ _ capturedNames, exclude =>
      capturedNames.filter (fun name => name ∉ exclude)
termination_by e _ => sizeOf e
decreasing_by
  all_goals simp_wf
  all_goals try omega
  · obtain ⟨⟨k, sub⟩, hmem⟩ := p
    have h := List.sizeOf_lt_of_mem hmem
    simp at h ⊢
    omega

/-- `unique(arr) = [...new Set(arr)]`: deduplication keeping the first
occurrence of each element, preserving their order. -/
def uniqueFirst : List String → List String
  | [] => []
  | x :: xs => x :: uniqueFirst (xs.filter (· ≠ x))
termination_by l => l.length
decreasing_by
  have h := List.length_filter_le (fun y => decide (y ≠ x)) xs
  simp at h ⊢
  omega

/-- `getCapturedNames(expr, exclude) = unique(_getCapturedNames(expr, exclude))`. -/
def getCapturedNames (e : Expr) (exclude : List String) : List String :=
  uniqueFirst (getCapturedNamesRaw e exclude)

/-- `makeLambda(arg, expr)` builds a `Lam` node with
`capturedNames = getCapturedNames(expr, extractNamesFromArg(arg))`. -/
def makeLambda (arg : LamArg) (expr : Expr) : Expr :=
  .lam arg expr (getCapturedNames expr (extractNamesFromArg arg))

/-- The `capturedNames` field of a `Lam` node (`[]` on other nodes). -/
def Expr.capturedOf : Expr → List String
  | .lam _ _ capturedNames => capturedNames
  | _ => []

/-! ## Shunting-yard (`shunting-yard.ts`, provided as `src/unnamed/part_010`) -/

/-- `getPriority(operator, options)`: a backtick-quoted expression operator
uses `backtickPriority`; an infix operator looks its name up in `priorities`,
falling back to `defaultPriority` (the JS `||` on a record lookup). -/
def getPriority (operator : Op) (options : ParseOptions) : Priority :=
  match operator with
  | .exprOp _ => options.backtickPriority
  | .infixOp name =>
      match options.priorities.lookup name with
      | some p => p
      | none => options.defaultPriority

/-- One `reduce()` application node:
`InfixOp(name) ↦ App(App(Name(name), left), right)`,
`ExprOp(expr) ↦ App(App(expr, left), right)`. -/
def reduceApp (op : Op) (left right : Expr) : Expr :=
  match op with
  | .exprOp expr => .app (.app expr left) right
  | .infixOp name => .app (.app (.name name) left) right

/-- The docstring condition of the inner `while` loop: the incoming operator
priority `my` keeps reducing while
`my.strength < top.strength || (my.strength == top.strength && my.direction == 'left')`. -/
def topBeats (my top : Priority) : Bool :=
  my.strength < top.strength
    || (my.strength == top.strength && my.direction == .left)

/-- The inner `while (true)` loop of `shuntingYard`: starting from stacks
`opStack`/`exprStack`, repeatedly `reduce()` while the stack top beats the
incoming priority.  `none` models the `never()` exception (operand stack
underflow). -/
def popWhile (my : Priority) (options : ParseOptions) :
    List Op → List Expr → Option (List Op × List Expr)
  | [], exprStack => some ([], exprStack)
  | top :: rest, exprStack =>
      if topBeats my (getPriority top options) then
        match exprStack with
        | right :: left :: es => popWhile my options rest (reduceApp top left right :: es)
        | _ => none
      else
        some (top :: rest, exprStack)

/-- Final phase of `shuntingYard`: reduce until the operator stack is empty,
then require exactly one operand. -/
def reduceAll : List Op → List Expr → Option Expr
  | [], [e] => some e
  | [], _ => none
  | op :: ops, right :: left :: es => reduceAll ops (reduceApp op left right :: es)
  | _ :: _, _ => none

/-- Main loop of `shuntingYard` over the stream
`initial, op₀, e₁, op₁, e₂, …`: each operator first pops by `popWhile`, is
pushed, and its operand is pushed. -/
def syLoop (options : ParseOptions) :
    List (Op × Expr) → List Op → List Expr → Option Expr
  | [], opStack, exprStack => reduceAll opStack exprStack
  | (op, app) :: rest, opStack, exprStack =>
      match popWhile (getPriority op options) options opStack exprStack with
      | none => none
      | some (ops', es') => syLoop options rest (op :: ops') (app :: es')

/-- `shuntingYard(ops, options)`; `none` models the `never()` exception. -/
def shuntingYard (ops : Ops) (options : ParseOptions) : Option Expr :=
  syLoop options ops.chunks [] [ops.initial]

/-! ## Lexer (`lexer.ts`, provided as `src/unnamed/part_017`)

The lexer is `src.matchAll(re)` over one combined regular expression, an
ordered alternation of the token patterns.  We model JavaScript regex
semantics directly: at each position the alternatives are tried in order and
the first one that matches wins; `matchAll` scans forward to the earliest
position at which some alternative matches.  Every alternative requires at
least one character, so matches never have length zero. -/

/-- Token kinds (`Tok`).  `if`/`then`/`else` are keywords in Lean, hence the
`kw` prefix. -/
inductive TokKind where
  | name | dec | lp | rp | lbr | rbr | lsq | rsq | comma | col | op
  | backtick | string1 | string2 | kwIf | kwThen | kwElse | dot | ws
  | semicolon
deriving DecidableEq, Repr

/-- A token: `{type, position, content}`. -/
structure Token where
  type : TokKind
  position : Nat
  content : String
deriving DecidableEq, Repr

/-- JavaScript `\w`: `[A-Za-z0-9_]`. -/
def isWordChar (c : Char) : Bool := c.isAlpha || c.isDigit || c = '_'

/-- The character class of the `name` pattern: `[a-zA-Z_0-9?!]`. -/
def isNameChar (c : Char) : Bool := isWordChar c || c = '?' || c = '!'

/-- JavaScript `\s` (whitespace class). -/
def isJsSpace (c : Char) : Bool :=
  c = ' ' || c = '\t' || c = '\n' || c.val = 11 || c.val = 12 || c = '\r'
    || c.val = 0xa0 || c.val = 0x1680
    || (0x2000 ≤ c.val && c.val ≤ 0x200a)
    || c.val = 0x2028 || c.val = 0x2029 || c.val = 0x202f || c.val = 0x205f
    || c.val = 0x3000 || c.val = 0xfeff

/-- JavaScript line terminators, the characters `.` does not match. -/
def isLineTerm (c : Char) : Bool :=
  c = '\n' || c = '\r' || c.val = 0x2028 || c.val = 0x2029

/-- The operator character class `[-+=*/%!|&^$><?.]`. -/
def isOpChar (c : Char) : Bool :=
  ['-', '+', '=', '*', '/', '%', '!', '|', '&', '^', '$', '>', '<', '?', '.'].contains c

/-- Length of the longest prefix satisfying `p` (greedy `+`/`*` matching). -/
def countWhile (p : Char → Bool) (l : List Char) : Nat :=
  (l.takeWhile p).length

theorem countWhile_le (p : Char → Bool) (l : List Char) : countWhile p l ≤ l.length := by
  induction l with
  | nil => simp [countWhile]
  | cons c l ih =>
      by_cases h : p c <;> simp [countWhile, List.takeWhile, h] at ih ⊢ <;> omega

theorem countWhile_pos (p : Char → Bool) (c : Char) (l : List Char) (h : p c = true) :
    0 < countWhile p (c :: l) := by
  simp [countWhile, List.takeWhile, h]

/-- A keyword pattern `kw\b`: the literal word, not followed by a word
character (the preceding character of each keyword is a word character, so
the boundary holds iff the next character is not one, or the input ends). -/
def matchKeyword (kw : List Char) (rest : List Char) : Option Nat :=
  if rest.take kw.length = kw then
    match rest.drop kw.length with
    | [] => some kw.length
    | c :: _ => if isWordChar c then none else some kw.length
  else none

theorem matchKeyword_bound (kw rest : List Char) (n : Nat)
    (h : matchKeyword kw rest = some n) : n = kw.length ∧ kw.length ≤ rest.length := by
  unfold matchKeyword at h
  split at h
  · next htake =>
      have hlen : (rest.take kw.length).length = kw.length := by rw [htake]
      simp at hlen
      split at h <;> [skip; split at h] <;> simp_all <;> omega
  · simp at h

/-- The `ws` pattern `\s+|#.*\n?`: greedy whitespace, or `#` followed by
non-line-terminators and an optional `\n`. -/
def matchWs (rest : List Char) : Option Nat :=
  match rest with
  | [] => none
  | c :: tail =>
      if isJsSpace c then some (countWhile isJsSpace (c :: tail))
      else if c = '#' then
        let n := countWhile (fun c => !isLineTerm c) tail
        some (1 + n + (if (tail.drop n).head? = some '\n' then 1 else 0))
      else none

theorem matchWs_bound (rest : List Char) (n : Nat) (h : matchWs rest = some n) :
    0 < n ∧ n ≤ rest.length := by
  unfold matchWs at h
  split at h
  · simp at h
  · next c tail =>
      split at h
      · next hsp =>
          have h1 := countWhile_pos isJsSpace c tail hsp
          have h2 := countWhile_le isJsSpace (c :: tail)
          simp only [Option.some.injEq] at h
          omega
      · split at h
        · have h2 := countWhile_le (fun c => !isLineTerm c) tail
          simp only [Option.some.injEq] at h
          split at h
          · next hh =>
              have hne : tail.drop (countWhile (fun c => !isLineTerm c) tail) ≠ [] := by
                intro hnil
                rw [hnil] at hh
                simp at hh
              have hlt := List.length_pos.2 hne
              rw [List.length_drop] at hlt
              simp only [List.length_cons]
              omega
          · simp only [List.length_cons]
            omega
        · simp at h

/-- The `name` pattern `(?![0-9?!])[a-zA-Z_0-9?!]+`: the lookahead and the
class requirement together force the first character to be a letter or `_`;
thereafter letters, digits, `_`, `?`, `!` are consumed greedily. -/
def matchName (rest : List Char) : Option Nat :=
  match rest with
  | [] => none
  | c :: _ =>
      if isNameChar c && !(c.isDigit || c = '?' || c = '!') then
        some (countWhile isNameChar rest)
      else none

theorem matchName_bound (rest : List Char) (n : Nat) (h : matchName rest = some n) :
    0 < n ∧ n ≤ rest.length := by
  unfold matchName at h
  split at h
  · simp at h
  · next c tail =>
      split at h
      · next hc =>
          simp at h hc
          have h1 := countWhile_pos isNameChar c tail hc.1
          have h2 := countWhile_le isNameChar (c :: tail)
          omega
      · simp at h

/-- The leading `[-]?` of the `dec` pattern (it only commits when digits
follow; `matchDec` checks that). -/
def decNegLen (rest : List Char) : Nat :=
  match rest with | '-' :: _ => 1 | _ => 0

/-- The optional fraction group `(\.\d+)?`: consumes input only when a dot
with at least one digit follows. -/
def decFracLen (rest : List Char) : Nat :=
  match rest with
  | '.' :: r =>
      if countWhile Char.isDigit r = 0 then 0 else 1 + countWhile Char.isDigit r
  | _ => 0

/-- The optional sign `[-+]?` inside the exponent group. -/
def decSignLen (r : List Char) : Nat :=
  match r with
  | c :: _ => if c = '-' || c = '+' then 1 else 0
  | [] => 0

/-- The optional exponent group `(e[-+]?\d+)?`: consumes input only when the
whole group can match. -/
def decExpLen (rest : List Char) : Nat :=
  match rest with
  | 'e' :: r =>
      if countWhile Char.isDigit (r.drop (decSignLen r)) = 0 then 0
      else 1 + decSignLen r + countWhile Char.isDigit (r.drop (decSignLen r))
  | _ => 0

/-- Input remaining after the optional minus sign. -/
def decRest1 (rest : List Char) : List Char := rest.drop (decNegLen rest)

/-- Number of digits of the mandatory integer part. -/
def decD (rest : List Char) : Nat := countWhile Char.isDigit (decRest1 rest)

/-- Input remaining after the integer part. -/
def decRest2 (rest : List Char) : List Char := (decRest1 rest).drop (decD rest)

/-- Input remaining after the fraction group. -/
def decRest3 (rest : List Char) : List Char :=
  (decRest2 rest).drop (decFracLen (decRest2 rest))

/-- The `dec` pattern `[-]?\d+(\.\d+)?(e[-+]?\d+)?` with the regex's greedy
backtracking semantics: a leading `-` commits only when digits follow. -/
def matchDec (rest : List Char) : Option Nat :=
  if decD rest = 0 then none
  else some (decNegLen rest + decD rest + decFracLen (decRest2 rest)
    + decExpLen (decRest3 rest))

theorem decNegLen_le (rest : List Char) : decNegLen rest ≤ rest.length := by
  unfold decNegLen
  split <;> simp

theorem decFracLen_le (rest : List Char) : decFracLen rest ≤ rest.length := by
  unfold decFracLen
  split
  · next r =>
      have := countWhile_le Char.isDigit r
      split
      · omega
      · simp
        omega
  · omega

theorem decExpLen_le (rest : List Char) : decExpLen rest ≤ rest.length := by
  unfold decExpLen
  split
  · next r =>
      have h1 := countWhile_le Char.isDigit (r.drop (decSignLen r))
      rw [List.length_drop] at h1
      have h2 : decSignLen r ≤ r.length := by
        unfold decSignLen
        split
        · split <;> simp
        · simp
      split
      · omega
      · simp
        omega
  · omega

/-- A single-character pattern (brackets, punctuation, backtick). -/
def matchSingle (ch : Char) (rest : List Char) : Option Nat :=
  match rest with
  | c :: _ => if c = ch then some 1 else none
  | [] => none

theorem matchSingle_bound (ch : Char) (rest : List Char) (n : Nat)
    (h : matchSingle ch rest = some n) : 0 < n ∧ n ≤ rest.length := by
  unfold matchSingle at h
  split at h
  · split at h <;> simp_all <;> omega
  · simp at h

/-- The `dot` pattern `\.(?=[^-+=*/%!|&^$><?.])`: a dot whose lookahead
requires a following character outside the operator class. -/
def matchDot (rest : List Char) : Option Nat :=
  match rest with
  | '.' :: c :: _ => if isOpChar c then none else some 1
  | _ => none

theorem matchDot_bound (rest : List Char) (n : Nat) (h : matchDot rest = some n) :
    0 < n ∧ n ≤ rest.length := by
  unfold matchDot at h
  split at h
  · split at h <;> simp_all <;> omega
  · simp at h

/-- The `op` pattern `[-+=*/%!|&^$><?.]+`. -/
def matchOp (rest : List Char) : Option Nat :=
  match rest with
  | c :: _ => if isOpChar c then some (countWhile isOpChar rest) else none
  | [] => none

theorem matchOp_bound (rest : List Char) (n : Nat) (h : matchOp rest = some n) :
    0 < n ∧ n ≤ rest.length := by
  unfold matchOp at h
  split at h
  · next c tail =>
      split at h
      · next hc =>
          simp only [Option.some.injEq] at h
          have h1 := countWhile_pos isOpChar c tail hc
          have h2 := countWhile_le isOpChar (c :: tail)
          omega
      · simp at h
  · simp at h

/-- Body of a string literal after its opening quote, matching
`(?:\\.|[^q])*q` with the regex engine's backtracking: at a backslash the
engine first tries the escape `\\.` (the dot does not match line
terminators) and falls back to matching the backslash with `[^q]` when the
rest cannot complete. Returns the number of characters consumed, including
the closing quote. -/
def strBody (q : Char) : List Char → Option Nat
  | [] => none
  | [c] => if c = q then some 1 else none
  | c :: d :: rest2 =>
      if c = q then some 1
      else if c = '\\' then
        if !isLineTerm d then
          match strBody q rest2 with
          | some n => some (n + 2)
          | none => (strBody q (d :: rest2)).map (· + 1)
        else (strBody q (d :: rest2)).map (· + 1)
      else (strBody q (d :: rest2)).map (· + 1)

theorem strBody_bound (q : Char) :
    ∀ (m : Nat) (l : List Char), l.length ≤ m →
      ∀ (n : Nat), strBody q l = some n → 0 < n ∧ n ≤ l.length := by
  intro m
  induction m with
  | zero =>
      intro l hl n h
      match l with
      | [] => simp [strBody] at h
      | c :: rest => simp at hl
  | succ m ih =>
      intro l hl n h
      match l with
      | [] => simp [strBody] at h
      | [c] =>
          unfold strBody at h
          split at h <;> simp_all <;> omega
      | c :: d :: rest2 =>
          unfold strBody at h
          simp only [List.length_cons] at hl
          split at h
          · simp only [Option.some.injEq] at h
            simp only [List.length_cons]
            omega
          · split at h
            · split at h
              · split at h
                · next n2 heq =>
                    simp only [Option.some.injEq] at h
                    have hb := ih rest2 (by omega) n2 heq
                    simp only [List.length_cons]
                    omega
                · simp only [Option.map_eq_some'] at h
                  obtain ⟨n1, heq, rfl⟩ := h
                  have hb := ih (d :: rest2) (by simp; omega) n1 heq
                  simp only [List.length_cons] at hb ⊢
                  omega
              · simp only [Option.map_eq_some'] at h
                obtain ⟨n1, heq, rfl⟩ := h
                have hb := ih (d :: rest2) (by simp; omega) n1 heq
                simp only [List.length_cons] at hb ⊢
                omega
            · simp only [Option.map_eq_some'] at h
              obtain ⟨n1, heq, rfl⟩ := h
              have hb := ih (d :: rest2) (by simp; omega) n1 heq
              simp only [List.length_cons] at hb ⊢
              omega

/-- The `string1`/`string2` patterns `q(?:\\.|[^q])*q`. -/
def matchString (q : Char) (rest : List Char) : Option Nat :=
  match rest with
  | c :: body => if c = q then (strBody q body).map (· + 1) else none
  | [] => none

theorem matchString_bound (q : Char) (rest : List Char) (n : Nat)
    (h : matchString q rest = some n) : 0 < n ∧ n ≤ rest.length := by
  unfold matchString at h
  split at h
  · next c body =>
      split at h
      · simp only [Option.map_eq_some'] at h
        obtain ⟨n1, heq, rfl⟩ := h
        have hb := strBody_bound q body.length body (le_refl _) n1 heq
        simp only [List.length_cons]
        omega
      · simp at h
  · simp at h

theorem matchDec_bound (rest : List Char) (n : Nat) (h : matchDec rest = some n) :
    0 < n ∧ n ≤ rest.length := by
  unfold matchDec at h
  split at h
  · simp at h
  · next hd =>
      simp only [Option.some.injEq] at h
      have h1 := decNegLen_le rest
      have h2 : decD rest ≤ rest.length - decNegLen rest := by
        have := countWhile_le Char.isDigit (decRest1 rest)
        unfold decD
        unfold decRest1 at this ⊢
        rwa [List.length_drop] at this
      have h3 : decFracLen (decRest2 rest) ≤ rest.length - decNegLen rest - decD rest := by
        have := decFracLen_le (decRest2 rest)
        unfold decRest2 decRest1 at this ⊢
        simp only [List.length_drop] at this
        omega
      have h4 : decExpLen (decRest3 rest)
          ≤ rest.length - decNegLen rest - decD rest - decFracLen (decRest2 rest) := by
        have := decExpLen_le (decRest3 rest)
        unfold decRest3 decRest2 decRest1 at this ⊢
        simp only [List.length_drop] at this
        omega
      omega

/-- One attempt of the combined regular expression at a position: the
alternatives are tried in the order they are listed in `makeRegexp` and the
first to match wins. -/
def altMatch (rest : List Char) : Option (TokKind × Nat) :=
  match matchKeyword ['i', 'f'] rest with
  | some n => some (.kwIf, n)
  | none =>
  match matchKeyword ['t', 'h', 'e', 'n'] rest with
  | some n => some (.kwThen, n)
  | none =>
  match matchKeyword ['e', 'l', 's', 'e'] rest with
  | some n => some (.kwElse, n)
  | none =>
  match matchWs rest with
  | some n => some (.ws, n)
  | none =>
  match matchSingle '(' rest with
  | some n => some (.lp, n)
  | none =>
  match matchSingle ')' rest with
  | some n => some (.rp, n)
  | none =>
  match matchSingle '[' rest with
  | some n => some (.lsq, n)
  | none =>
  match matchSingle ']' rest with
  | some n => some (.rsq, n)
  | none =>
  match matchSingle '{' rest with
  | some n => some (.lbr, n)
  | none =>
  match matchSingle '}' rest with
  | some n => some (.rbr, n)
  | none =>
  match matchSingle ':' rest with
  | some n => some (.col, n)
  | none =>
  match matchSingle ',' rest with
  | some n => some (.comma, n)
  | none =>
  match matchName rest with
  | some n => some (.name, n)
  | none =>
  match matchDec rest with
  | some n => some (.dec, n)
  | none =>
  match matchDot rest with
  | some n => some (.dot, n)
  | none =>
  match matchOp rest with
  | some n => some (.op, n)
  | none =>
  match matchSingle '`' rest with
  | some n => some (.backtick, n)
  | none =>
  match matchString '\'' rest with
  | some n => some (.string1, n)
  | none =>
  match matchString '"' rest with
  | some n => some (.string2, n)
  | none =>
  match matchSingle ';' rest with
  | some n => some (.semicolon, n)
  | none => none

theorem altMatch_bound (rest : List Char) (k : TokKind) (n : Nat)
    (h : altMatch rest = some (k, n)) : 0 < n ∧ n ≤ rest.length := by
  unfold altMatch at h
  repeat' split at h
  all_goals
    simp only [Option.some.injEq, Prod.mk.injEq, reduceCtorEq] at h
  all_goals try exact absurd h not_false
  all_goals obtain ⟨-, rfl⟩ := h
  all_goals rename_i heq
  all_goals
    first
      | (have hb := matchKeyword_bound _ _ _ heq; simp at hb; omega)
      | exact matchWs_bound _ _ heq
      | exact matchName_bound _ _ heq
      | exact matchDec_bound _ _ heq
      | exact matchDot_bound _ _ heq
      | exact matchOp_bound _ _ heq
      | exact matchSingle_bound _ _ _ heq
      | exact matchString_bound _ _ _ heq

theorem altMatch_nil : altMatch [] = none := by decide

/-- `matchAll`'s forward scan: the earliest position at or after the current
one where the combined regex matches, together with the winning alternative
and its match length. -/
def findMatch : List Char → Option (Nat × TokKind × Nat)
  | [] => none
  | c :: rest =>
      match altMatch (c :: rest) with
      | some (k, n) => some (0, k, n)
      | none =>
          match findMatch rest with
          | some (p, k, n) => some (p + 1, k, n)
          | none => none

theorem findMatch_none (l : List Char) (h : findMatch l = none) :
    ∀ q, altMatch (l.drop q) = none := by
  induction l with
  | nil =>
      intro q
      rw [List.drop_nil]
      exact altMatch_nil
  | cons c rest ih =>
      intro q
      unfold findMatch at h
      split at h
      · exact absurd h (by simp)
      · next halt =>
          split at h
          · exact absurd h (by simp)
          · next hfm =>
              match q with
              | 0 => exact halt
              | q + 1 => exact ih hfm q

theorem findMatch_some (l : List Char) (p : Nat) (k : TokKind) (n : Nat)
    (h : findMatch l = some (p, k, n)) :
    altMatch (l.drop p) = some (k, n) ∧ ∀ q, q < p → altMatch (l.drop q) = none := by
  induction l generalizing p k n with
  | nil => simp [findMatch] at h
  | cons c rest ih =>
      unfold findMatch at h
      split at h
      · next k0 n0 halt =>
          simp only [Option.some.injEq, Prod.mk.injEq] at h
          obtain ⟨rfl, rfl, rfl⟩ := h
          exact ⟨halt, by omega⟩
      · next halt =>
          split at h
          · next p0 k0 n0 hfm =>
              simp only [Option.some.injEq, Prod.mk.injEq] at h
              obtain ⟨rfl, rfl, rfl⟩ := h
              obtain ⟨h1, h2⟩ := ih p0 k0 n0 hfm
              refine ⟨h1, ?_⟩
              intro q hq
              match q with
              | 0 => exact halt
              | q + 1 => exact h2 q (by omega)
          · exact absurd h (by simp)

/-- The main lexing loop.  `rem` is the not-yet-consumed suffix of the
source; `pos` its absolute offset (= `latestPos` in the source, which always
equals the scan start).  A gap before the next match, or a trailing
unmatchable suffix, produces the `I don't understand` error covering the
gap; `ws` tokens are pushed only when `includeWs` is set.  `gas` is a
structural-recursion bound: every match consumes at least one character, so
`gas = rem.length` always suffices and the `"lexer out of gas"` branch is
unreachable (`lexLoop_covers` below). -/
def lexLoop (includeWs : Bool) : (gas : Nat) → (rem : List Char) → (pos : Nat) →
    Except String (List Token)
  | 0, rem, _ =>
      if rem.isEmpty then .ok [] else .error "lexer out of gas"
  | gas + 1, rem, pos =>
      match findMatch rem with
      | none =>
          if rem.isEmpty then .ok []
          else .error ("I don't understand: " ++ String.mk rem)
      | some (p, k, len) =>
          if p = 0 then
            match lexLoop includeWs gas (rem.drop len) (pos + len) with
            | .error msg => .error msg
            | .ok toks =>
                if k ≠ TokKind.ws || includeWs then
                  .ok ({ type := k, position := pos,
                         content := String.mk (rem.take len) } :: toks)
                else .ok toks
          else .error ("I don't understand: " ++ String.mk (rem.take p))

/-- `lex(src, options)`: either the token stream or the error string. -/
def lex (src : String) (includeWs : Bool := false) : Except String (List Token) :=
  lexLoop includeWs src.toList.length src.toList 0

/-! ## Units (`units.ts`, provided as `src/src/lang/units.ts`)

A `Unit` couples an exact decimal magnitude (`big.js`, embedded into `ℚ`)
with a dimension: one exact rational exponent (`fraction.js`, also `ℚ`) per
SI base unit `T, L, M, I, Th, N, J`. -/

/-- A dimension: rational exponents for the seven SI base units. -/
structure Dim where
  t : ℚ
  l : ℚ
  m : ℚ
  i : ℚ
  th : ℚ
  n : ℚ
  j : ℚ
deriving DecidableEq, Repr

/-- `neutralDimension`: all exponents zero. -/
def neutralDimension : Dim := ⟨0, 0, 0, 0, 0, 0, 0⟩

/-- `dimEq`: componentwise equality of dimensions. -/
def dimEq (d1 d2 : Dim) : Bool :=
  d1.t == d2.t && d1.l == d2.l && d1.m == d2.m && d1.i == d2.i
    && d1.th == d2.th && d1.n == d2.n && d1.j == d2.j

/-- Componentwise sum of dimensions (used by `mul`). -/
def Dim.add (d1 d2 : Dim) : Dim :=
  ⟨d1.t + d2.t, d1.l + d2.l, d1.m + d2.m, d1.i + d2.i, d1.th + d2.th,
   d1.n + d2.n, d1.j + d2.j⟩

/-- Componentwise difference of dimensions (used by `div`). -/
def Dim.sub (d1 d2 : Dim) : Dim :=
  ⟨d1.t - d2.t, d1.l - d2.l, d1.m - d2.m, d1.i - d2.i, d1.th - d2.th,
   d1.n - d2.n, d1.j - d2.j⟩

/-- Every exponent multiplied by `q` (used by `pow`). -/
def Dim.scale (d : Dim) (q : ℚ) : Dim :=
  ⟨d.t * q, d.l * q, d.m * q, d.i * q, d.th * q, d.n * q, d.j * q⟩

/-- Every exponent divided by `q` (used by `root`; `q ≠ 0` is guarded). -/
def Dim.divBy (d : Dim) (q : ℚ) : Dim :=
  ⟨d.t / q, d.l / q, d.m / q, d.i / q, d.th / q, d.n / q, d.j / q⟩

/-- A `Unit` value: exact decimal magnitude plus dimension. -/
structure UnitV where
  value : ℚ
  dim : Dim
deriving DecidableEq, Repr

/-- `value.round().eq(value)`: the magnitude is an integer. -/
def UnitV.isIntValue (u : UnitV) : Bool := u.value.den == 1

/-- `Unit.add`: requires equal dimensions, else `null`. -/
def UnitV.add (a b : UnitV) : Option UnitV :=
  if dimEq a.dim b.dim then some ⟨a.value + b.value, a.dim⟩ else none

/-- `Unit.sub`: requires equal dimensions, else `null`. -/
def UnitV.sub (a b : UnitV) : Option UnitV :=
  if dimEq a.dim b.dim then some ⟨a.value - b.value, a.dim⟩ else none

/-- `Unit.mul`: multiplies magnitudes, adds exponents. -/
def UnitV.mul (a b : UnitV) : UnitV :=
  ⟨a.value * b.value, a.dim.add b.dim⟩

/-- `Unit.div`: `null` on a zero divisor; subtracts exponents.  `big.js`
division rounds to 20 significant digits, so the magnitude is delegated to
the `bigDiv` parameter. -/
def UnitV.div (bigDiv : ℚ → ℚ → ℚ) (a b : UnitV) : Option UnitV :=
  if b.value == 0 then none
  else some ⟨bigDiv a.value b.value, a.dim.sub b.dim⟩

/-- `Unit.pow`.  The guard is, verbatim from the source:
`this.value.lt(0) || this.value.eq(0) && unit.value.eq(0) || !dimEq(unit.dim,
neutralDimension) || !unit.value.round().eq(unit.value)`; on success every
exponent is multiplied by the exponent operand and the magnitude is
`this.value.pow(unit.value.toNumber())` (`big.js` exponentiation, delegated
to the `bigPow` parameter: it is exact for non-negative integer exponents
and rounded for negative ones). -/
def UnitV.pow (bigPow : ℚ → ℤ → ℚ) (a b : UnitV) : Option UnitV :=
  if a.value < 0 || (a.value == 0 && b.value == 0)
      || !dimEq b.dim neutralDimension || !b.isIntValue then
    none
  else
    some ⟨bigPow a.value b.value.num, a.dim.scale b.value⟩

/-- `Unit.root`.  The guard is, verbatim from the source:
`unit.value.eq(0) || !dimEq(unit.dim, neutralDimension) ||
!unit.value.round().eq(unit.value) || this.value.lt(0) &&
unit.value.toNumber() % 2 !== 0`; on success every exponent is divided by
the root operand and the magnitude is
`Math.pow(this.value.toNumber(), 1 / unit.value.toNumber())` (IEEE floating
point, delegated to the `mathRoot` parameter).  Note that the last guard
clause rejects a negative radicand exactly when the root index is odd. -/
def UnitV.root (mathRoot : ℚ → ℚ → ℚ) (a b : UnitV) : Option UnitV :=
  if b.value == 0 || !dimEq b.dim neutralDimension || !b.isIntValue
      || (a.value < 0 && b.value.num % 2 != 0) then
    none
  else
    some ⟨mathRoot a.value b.value, a.dim.divBy b.value⟩

/-! ## Runtime data model

The current `runtime.ts` is not among the provided source files — only its
callers (`interpreter.ts` = `src/unnamed/part_006`), older revisions and its
tests are.  The following data model is therefore modelled from the
specification (§3 "Value", "Environment", "RuntimeError"; §9 "model an env
as an arena of nodes addressed by indices"), keeping the constructor and
field names used throughout `part_006`.

Native functions are defunctionalised: the prelude constructs a closed set
of native callables, so each becomes a `NativeFn` constructor carrying its
captured values, and `applyNative` gives each its behaviour.  A native's
`LazyName` serves only pretty-printing (out of scope here) and is not
modelled.  Natives whose behaviour lives outside the core (file/console
I/O, module resolution, `Refl` printing, the `Imp` non-local exits) are
represented by `NativeFn.ext` tags whose behaviour is a parameter
(`ExtSem.runExt`); no claim depends on them. -/

mutual
/-- Runtime values (spec §3): `Str`, `Unit`, `Symbol`, `Bool`, `Table`
(insertion-ordered map), `Fun` (a `Lambda` plus the environment reference
captured at creation), and `Native`. -/
inductive Value where
  | str (s : String)
  | unitV (u : UnitV)
  | symbol (s : String)
  | bool (b : Bool)
  | table (entries : List (String × Value))
  | funV (arg : LamArg) (body : Expr) (captured : List String) (closure : Nat)
  | native (fn : NativeFn)

/-- Defunctionalised native callables of the prelude (`interpreter.ts`). -/
inductive NativeFn where
  /-- Stage 1 of `_binOp name …`: waiting for the left operand. -/
  | binop (opName : String)
  /-- Stage 2 of `_binOp name …`: left operand received. -/
  | binop2 (opName : String) (a : Value)
  /-- The callable returned by `p |? q` (`_fallback`'s inner `Native`). -/
  | fallback2 (primary fallback : Value)
  /-- `compose(f1, f2)`: applies `f2`, then `f1`. -/
  | composeFn (f1 f2 : Value)
  /-- `_makeModule(name, table)`: responds to a symbol key by table lookup;
  `tableV` already contains the `__table__` self-entry. -/
  | moduleFn (name : String) (tableV : List (String × Value))
  /-- `IO:define`: waiting for the name. -/
  | ioDefine
  /-- `(IO:define :name)`: deletes then re-binds `name` on application. -/
  | defineSet (varName : String)
  /-- `IO:forget`. -/
  | ioForget
  /-- `IO:unpack`. -/
  | ioUnpack
  /-- `IO:try`. -/
  | ioTry
  /-- `Sym:is`: waiting for the symbol. -/
  | symIs0
  /-- `Sym:is :sym`: tests its argument against `sym`. -/
  | symIs (sym : String)
  /-- `Imp:chain`: returns itself on every application. -/
  | chain
  /-- `Refl:get_closure` / `Refl:get_total_closure`. -/
  | getClosure (includeGlobals : Bool)
  /-- `meters`/`kilograms`/`seconds`: attach dimension `d` to a
  dimensionless argument. -/
  | dimCtor (d : Dim)
  /-- An out-of-scope native (console/file I/O, module resolution,
  `Imp:early_return`, `Imp:while`, pretty-printing); behaviour is the
  `ExtSem.runExt` parameter. -/
  | ext (tag : String)
end

/-- `RuntimeError` (spec §3). -/
inductive RuntimeError where
  | unexpectedType (expected : String) (got : Value)
  | missingKey (key : String)
  | undefinedName (name : String)
  | dimensionMismatch (left right : Dim)
  | notInDomain (value : Value) (explanation : String)
  | other (v : Value)

/-- `LangError`. -/
inductive LangError where
  | lexError (msg : String)
  | parseError (msg : String)
  | runtimeError (err : RuntimeError)

/-- An environment node: `{parent: Env | null, names: Map<string, Value>}`,
with the parent given as an arena index (spec §9). -/
structure EnvNode where
  parent : Option Nat
  names : List (String × Value)

/-- The arena of environment nodes plus the index of the interpreter's own
top-level node (`this.env`), the only node the built-ins mutate. -/
structure Store where
  envs : List EnvNode
  rootIdx : Nat

/-- `Map.set`: overwrite in place if the key exists, else append (insertion
order preserved). -/
def setAssoc (k : String) (v : Value) : List (String × Value) → List (String × Value)
  | [] => [(k, v)]
  | (k', v') :: rest => if k' = k then (k', v) :: rest else (k', v') :: setAssoc k v rest

/-- `Map.delete`. -/
def delAssoc (k : String) (l : List (String × Value)) : List (String × Value) :=
  l.filter (fun p => p.1 ≠ k)

/-- `Map(pairs)`: building a map from a pair array, later duplicates
overwriting earlier ones in place. -/
def mkTableMap (pairs : List (String × Value)) : List (String × Value) :=
  pairs.foldl (fun acc p => setAssoc p.1 p.2 acc) []

/-- `Interpreter.setName`: `this.env.names = this.env.names.set(name, value)`
— replaces the `names` field of the interpreter's top-level node, in place;
no other node is touched. -/
def Store.setName (st : Store) (name : String) (v : Value) : Store :=
  match st.envs[st.rootIdx]? with
  | some node =>
      { st with envs := st.envs.set st.rootIdx { node with names := setAssoc name v node.names } }
  | none => st

/-- `Interpreter.deleteName`. -/
def Store.deleteName (st : Store) (name : String) : Store :=
  match st.envs[st.rootIdx]? with
  | some node =>
      { st with envs := st.envs.set st.rootIdx { node with names := delAssoc name node.names } }
  | none => st

/-- Allocation of a fresh environment node (on function application). -/
def Store.alloc (st : Store) (node : EnvNode) : Store × Nat :=
  ({ st with envs := st.envs ++ [node] }, st.envs.length)

/-- `tryLookupName(name, env)`: look `name` up along the parent chain.
`gas` bounds the chain walk (the arena contains no cycles for stores the
evaluator builds); `none` means the bound was hit, `some none` that the
name is absent from the whole chain. -/
def tryLookupName (gas : Nat) (name : String) (env : Nat) (st : Store) :
    Option (Option Value) :=
  match gas with
  | 0 => none
  | gas + 1 =>
      match st.envs[env]? with
      | none => none
      | some node =>
          match List.lookup name node.names with
          | some v => some (some v)
          | none =>
              match node.parent with
              | none => some none
              | some p => tryLookupName gas name p st

/-! ## Weak equality (`_weakEquality` in `interpreter.ts`, source lines
642–672 of `src/unnamed/part_006`) -/

/-- `Value.tag` as the `@practical-fp/union-types` variant name; the
function compares tags with JS string `>`. -/
def tagOf : Value → String
  | .str _ => "Str"
  | .unitV _ => "Unit"
  | .symbol _ => "Symbol"
  | .bool _ => "Bool"
  | .table _ => "Table"
  | .funV _ _ _ _ => "Fun"
  | .native _ => "Native"

/-- JS `<` on strings: lexicographic comparison of code units. -/
def charListLt : List Char → List Char → Bool
  | [], [] => false
  | [], _ :: _ => true
  | _ :: _, [] => false
  | c :: cs, d :: ds =>
      if c.toNat < d.toNat then true
      else if d.toNat < c.toNat then false
      else charListLt cs ds

/-- JS `>` on strings (`a > b` iff `b < a`). -/
def jsStrGt (a b : String) : Bool := charListLt b.toList a.toList

/-- Insertion of a string into a sorted list (JS `Array.sort` with the
default lexicographic comparator). -/
def insertSorted (s : String) : List String → List String
  | [] => [s]
  | x :: xs => if jsStrGt s x then x :: insertSorted s xs else s :: x :: xs

/-- `[...table.keys()].sort()`. -/
def sortedKeys (entries : List (String × Value)) : List String :=
  entries.foldr (fun p acc => insertSorted p.1 acc) []

/-- The source compares the two sorted key arrays with
`!==`.  JavaScript `!==` on objects is reference inequality, and both
arrays are freshly constructed, so the comparison is `true` whatever the
keys are. -/
def jsStrictNeqArrays (_xs _ys : List String) : Bool := true

theorem lookup_mem {k : String} {l : List (String × Value)} {v : Value}
    (h : List.lookup k l = some v) : ∃ k', (k', v) ∈ l := by
  induction l with
  | nil => simp [List.lookup] at h
  | cons p rest ih =>
      rw [List.lookup] at h
      split at h
      · simp only [Option.some.injEq] at h
        exact ⟨p.1, by rw [← h]; simp⟩
      · obtain ⟨k', hk⟩ := ih h
        exact ⟨k', by simp [hk]⟩

mutual
/-- `_weakEquality(a, b)`: normalises the tag order by swapping, then
dispatches on `a`'s variant.  `fuel` is a structural-recursion bound on the
nesting depth (the source recursion is depth-bounded by its arguments; any
`fuel` larger than the combined size of `a` and `b` is enough). -/
def weakEquality : Nat → Value → Value → Bool
  | 0, _, _ => false
  | fuel + 1, a, b =>
      if jsStrGt (tagOf a) (tagOf b) then weakCore fuel b a else weakCore fuel a b
termination_by structural fuel => fuel

/-- The `matchWildcard` body of `_weakEquality`: `Str`/`Unit`/`Symbol`/
`Bool` compare structurally; `Table` first compares the sorted key arrays
with `!==` (always unequal, see `jsStrictNeqArrays`) and only then — dead
code — compares values pointwise; `Fun`/`Native` fall to the wildcard,
`false`.  The pointwise loop uses `bTable.get(k)!`; the `none` branch
models the non-null assertion (unreachable under key-set equality). -/
def weakCore : Nat → Value → Value → Bool
  | 0, _, _ => false
  | fuel + 1, a, b =>
      match a, b with
      | .str v, b => match b with | .str w => w == v | _ => false
      | .unitV u, b =>
          match b with
          | .unitV w => dimEq u.dim w.dim && u.value == w.value
          | _ => false
      | .symbol s, b => match b with | .symbol w => w == s | _ => false
      | .bool x, b => match b with | .bool y => y == x | _ => false
      | .table aTable, b =>
          match b with
          | .table bTable =>
              if jsStrictNeqArrays (sortedKeys aTable) (sortedKeys bTable) then false
              else
                aTable.all fun p =>
                  match List.lookup p.1 bTable with
                  | some w => weakEquality fuel p.2 w
                  | none => false
          | _ => false
      | .funV _ _ _ _, _ => false
      | .native _, _ => false
termination_by structural fuel => fuel
end

/-! ## Evaluator

`interpret`, `applyFunction` and `bindNames` are modelled from spec §4.6
(the current `runtime.ts` being absent from the sources); the per-operator
built-in bodies are translated from `makeEnv` in `interpreter.ts`
(`src/unnamed/part_006`).  All evaluator functions are fuel-indexed:
`none` means the fuel ran out (or an internal `never`-style crash), `some`
carries the `Result<Value, RuntimeError>` and the store. -/

/-- The casts `asStr` etc. of the runtime: `Ok` on the right variant, else
`UnexpectedType{expected, got}`. -/
def asStr : Value → Except RuntimeError String
  | .str s => .ok s
  | v => .error (.unexpectedType "string" v)

def asSymb : Value → Except RuntimeError String
  | .symbol s => .ok s
  | v => .error (.unexpectedType "symbol" v)

def asStrOrSymb : Value → Except RuntimeError String
  | .str s => .ok s
  | .symbol s => .ok s
  | v => .error (.unexpectedType "string|symbol" v)

def asUnit : Value → Except RuntimeError UnitV
  | .unitV u => .ok u
  | v => .error (.unexpectedType "unit" v)

def asBool : Value → Except RuntimeError Bool
  | .bool b => .ok b
  | v => .error (.unexpectedType "boolean" v)

def asTable : Value → Except RuntimeError (List (String × Value))
  | .table t => .ok t
  | v => .error (.unexpectedType "table" v)

/-- `asAny` is `Ok`. -/
def asAny : Value → Except RuntimeError Value := .ok

/-- `asNeutral` (`interpreter.ts`): the value of a dimensionless unit, else
`DimensionMismatch{left: dim, right: neutralDimension}`. -/
def asNeutral (v : Value) : Except RuntimeError ℚ :=
  match asUnit v with
  | .error e => .error e
  | .ok a =>
      if dimEq a.dim neutralDimension then .ok a.value
      else .error (.dimensionMismatch a.dim neutralDimension)

/-- `renderRuntimeError` (used only by `IO:try`; spec §7 "IO:try reifies
errors into table values"): an `{error, details}` table per error variant. -/
def renderRuntimeError : RuntimeError → Value
  | .unexpectedType expected got =>
      .table [("error", .str "UnexpectedType"),
              ("details", .table [("expected", .str expected), ("got", got)])]
  | .missingKey k =>
      .table [("error", .str "MissingKey"), ("details", .table [("key", .str k)])]
  | .undefinedName n =>
      .table [("error", .str "UndefinedName"), ("details", .table [("name", .str n)])]
  | .dimensionMismatch _ _ =>
      .table [("error", .str "DimensionMismatch"), ("details", .table [])]
  | .notInDomain v expl =>
      .table [("error", .str "NotInDomain"),
              ("details", .table [("value", v), ("explanation", .str expl)])]
  | .other v =>
      .table [("error", .str "Other"), ("details", .table [("value", v)])]

/-- `_envToValue` (`Refl:get_closure`): environments reified as tables;
`gas` bounds the parent walk. -/
def envToValue (gas : Nat) (st : Store) (env : Option Nat) (includeGlobals : Bool) : Value :=
  match gas, env with
  | 0, _ => .symbol "nil"
  | _, none => .symbol "nil"
  | gas + 1, some idx =>
      match st.envs[idx]? with
      | none => .symbol "nil"
      | some node =>
          if node.parent == none && !includeGlobals then .symbol "nil"
          else
            .table [("parent", envToValue gas st node.parent includeGlobals),
                    ("names", .table node.names)]

/-- The semantics of the pieces the core delegates to the outside world:
the out-of-scope natives (`runExt`, keyed by tag, receiving the remaining
fuel, the argument, the caller's environment and the store), and the three
non-exact numeric primitives (`big.js` division, `big.js` exponentiation,
and `Math.pow`-based roots).  Theorems quantify over this structure. -/
structure ExtSem where
  runExt : String → Nat → Value → Nat → Store → Option (Except RuntimeError Value × Store)
  bigDiv : ℚ → ℚ → ℚ
  bigPow : ℚ → ℤ → ℚ
  mathRoot : ℚ → ℚ → ℚ

/-- The unit value `{}` (an empty table). -/
def unitValue : Value := .table []

/-- Abbreviation for an evaluator outcome. -/
abbrev EvalRes := Option (Except RuntimeError Value × Store)

/-- Sequencing of a cast with a continuation (`Ei.flatMap(first(a), …)`). -/
def liftCast {α : Type} (c : Except RuntimeError α) (st : Store)
    (f : α → EvalRes) : EvalRes :=
  match c with
  | .error e => some (.error e, st)
  | .ok x => f x

mutual

/-- `interpret(expr, env)` (spec §4.6), fuel-indexed. -/
def interpret (ext : ExtSem) : Nat → Expr → Nat → Store → EvalRes
  | 0, _, _, _ => none
  | fuel + 1, e, env, st =>
      match e with
      | .dec d => some (.ok (.unitV ⟨d, neutralDimension⟩), st)
      | .str s => some (.ok (.str s), st)
      | .symbol s => some (.ok (.symbol s), st)
      | .table pairs => interpretTable ext fuel pairs env st []
      | .name n =>
          match tryLookupName (fuel + 1) n env st with
          | none => none
          | some none => some (.error (.undefinedName n), st)
          | some (some v) => some (.ok v, st)
      | .app f a =>
          match interpret ext fuel f env st with
          | none => none
          | some (.error err, st') => some (.error err, st')
          | some (.ok fv, st') =>
              match interpret ext fuel a env st' with
              | none => none
              | some (.error err, st'') => some (.error err, st'')
              | some (.ok av, st'') => applyFunction ext fuel fv av env st''
      | .cond i t e' =>
          match interpret ext fuel i env st with
          | none => none
          | some (.error err, st') => some (.error err, st')
          | some (.ok c, st') =>
              match c with
              | .bool true => interpret ext fuel t env st'
              | .bool false => interpret ext fuel e' env st'
              | v => some (.error (.unexpectedType "boolean" v), st')
      | .lam arg body captured => some (.ok (.funV arg body captured env), st)
termination_by structural fuel _ _ _ => fuel

/-- Entries of a table literal, evaluated in source order with
short-circuiting; the result is `Table(Map(rv))`. -/
def interpretTable (ext : ExtSem) :
    Nat → List (String × Expr) → Nat → Store → List (String × Value) → EvalRes
  | 0, _, _, _, _ => none
  | _ + 1, [], _, st, acc => some (.ok (.table (mkTableMap acc)), st)
  | fuel + 1, (k, sub) :: rest, env, st, acc =>
      match interpret ext fuel sub env st with
      | none => none
      | some (.error err, st') => some (.error err, st')
      | some (.ok v, st') => interpretTable ext fuel rest env st' (acc ++ [(k, v)])
termination_by structural fuel _ _ _ _ => fuel

/-- `applyFunction(fun, arg, env)` (spec §4.6): dispatch on the callee
variant. -/
def applyFunction (ext : ExtSem) : Nat → Value → Value → Nat → Store → EvalRes
  | 0, _, _, _, _ => none
  | fuel + 1, fn, arg, env, st =>
      match fn with
      | .native nf => applyNative ext fuel nf arg env st
      | .funV argPat body _ closure =>
          match bindNames ext fuel argPat arg env st with
          | none => none
          | some (.error err, st') => some (.error err, st')
          | some (.ok bound, st') =>
              match st'.alloc ⟨some closure, mkTableMap bound⟩ with
              | (st'', newEnv) => interpret ext fuel body newEnv st''
      | .table entries =>
          match arg with
          | .symbol k =>
              match List.lookup k entries with
              | some v => some (.ok v, st)
              | none => some (.error (.missingKey k), st)
          | _ => some (.error (.unexpectedType "symbol" arg), st)
      | _ => some (.error (.unexpectedType "table|function|native" fn), st)
termination_by structural fuel _ _ _ _ => fuel

/-- `bindNames(declaration, argument, env)` (spec §4.6): a single name binds
directly; a table pattern extracts each entry by applying the argument to
the key symbol and binds recursively, concatenating. -/
def bindNames (ext : ExtSem) :
    Nat → LamArg → Value → Nat → Store → Option (Except RuntimeError (List (String × Value)) × Store)
  | 0, _, _, _, _ => none
  | _ + 1, .argSingle name, arg, _, st => some (.ok [(name, arg)], st)
  | fuel + 1, .argTable entries, arg, env, st => bindNamesTable ext fuel entries arg env st []
termination_by structural fuel _ _ _ _ => fuel

/-- Iteration of `bindNames` over the entries of a table pattern. -/
def bindNamesTable (ext : ExtSem) :
    Nat → List (String × LamArg) → Value → Nat → Store → List (String × Value) →
      Option (Except RuntimeError (List (String × Value)) × Store)
  | 0, _, _, _, _, _ => none
  | _ + 1, [], _, _, st, acc => some (.ok acc, st)
  | fuel + 1, (src, target) :: rest, arg, env, st, acc =>
      match applyFunction ext fuel arg (.symbol src) env st with
      | none => none
      | some (.error err, st') => some (.error err, st')
      | some (.ok sub, st') =>
          match bindNames ext fuel target sub env st' with
          | none => none
          | some (.error err, st'') => some (.error err, st'')
          | some (.ok bs, st'') => bindNamesTable ext fuel rest arg env st'' (acc ++ bs)
termination_by structural fuel _ _ _ _ _ => fuel

/-- Behaviour of each defunctionalised native (`interpreter.ts` bodies). -/
def applyNative (ext : ExtSem) : Nat → NativeFn → Value → Nat → Store → EvalRes
  | 0, _, _, _, _ => none
  | fuel + 1, nf, arg, env, st =>
      match nf with
      | .binop op => some (.ok (.native (.binop2 op arg)), st)
      | .binop2 op a => binOpSem ext fuel op a arg env st
      | .fallback2 p q =>
          match applyFunction ext fuel p arg env st with
          | none => none
          | some (.ok v, st') => some (.ok v, st')
          | some (.error err, st') =>
              match err with
              | .missingKey _ => applyFunction ext fuel q arg env st'
              | _ => some (.error err, st')
      | .composeFn f1 f2 =>
          match applyFunction ext fuel f2 arg env st with
          | none => none
          | some (.error err, st') => some (.error err, st')
          | some (.ok x2, st') => applyFunction ext fuel f1 x2 env st'
      | .moduleFn _ tableV => applyFunction ext fuel (.table tableV) arg env st
      | .ioDefine =>
          liftCast (asStrOrSymb arg) st fun varName =>
            some (.ok (.native (.defineSet varName)), st.deleteName varName)
      | .defineSet varName => some (.ok arg, st.setName varName arg)
      | .ioForget =>
          liftCast (asStrOrSymb arg) st fun varName =>
            some (.ok unitValue, st.deleteName varName)
      | .ioUnpack =>
          liftCast (asTable arg) st fun entries =>
            some (.ok unitValue, entries.foldl (fun s p => s.setName p.1 p.2) st)
      | .ioTry =>
          match applyFunction ext fuel arg unitValue env st with
          | none => none
          | some (.ok v, st') => some (.ok (.table [("ok", v)]), st')
          | some (.error err, st') => some (.ok (renderRuntimeError err), st')
      | .symIs0 =>
          liftCast (asSymb arg) st fun sym => some (.ok (.native (.symIs sym)), st)
      | .symIs sym =>
          match arg with
          | .symbol s => some (.ok (.bool (s == sym)), st)
          | _ => some (.ok (.bool false), st)
      | .chain => some (.ok (.native .chain), st)
      | .getClosure includeGlobals =>
          match arg with
          | .funV _ _ _ closure =>
              some (.ok (envToValue (fuel + 1) st (some closure) includeGlobals), st)
          | v => some (.error (.unexpectedType "function" v), st)
      | .dimCtor d =>
          liftCast (asNeutral arg) st fun v => some (.ok (.unitV ⟨v, d⟩), st)
      | .ext tag => ext.runExt tag fuel arg env st
termination_by structural fuel _ _ _ _ => fuel

/-- The stage-2 body of each `_binOp` entry of `makeEnv`
(`interpreter.ts`, `src/unnamed/part_006`, lines 677–761), with `a` the
left and `b` the right operand. -/
def binOpSem (ext : ExtSem) :
    Nat → String → Value → Value → Nat → Store → EvalRes
  | 0, _, _, _, _, _ => none
  | fuel + 1, op, a, b, env, st =>
  match op with
  | "+" =>
      liftCast (asUnit a) st fun ua => liftCast (asUnit b) st fun ub =>
        match ua.add ub with
        | none => some (.error (.dimensionMismatch ua.dim ub.dim), st)
        | some r => some (.ok (.unitV r), st)
  | "-" =>
      liftCast (asUnit a) st fun ua => liftCast (asUnit b) st fun ub =>
        match ua.sub ub with
        | none => some (.error (.dimensionMismatch ua.dim ub.dim), st)
        | some r => some (.ok (.unitV r), st)
  | "*" =>
      liftCast (asUnit a) st fun ua => liftCast (asUnit b) st fun ub =>
        some (.ok (.unitV (ua.mul ub)), st)
  | "/" =>
      liftCast (asUnit a) st fun ua => liftCast (asUnit b) st fun ub =>
        match ua.div ext.bigDiv ub with
        | none =>
            some (.error (.notInDomain
              (.table [("x", .unitV ua), ("y", .unitV ub)]) "division by zero"), st)
        | some r => some (.ok (.unitV r), st)
  | "^" =>
      liftCast (asUnit a) st fun ua => liftCast (asNeutral b) st fun bq =>
        match ua.pow ext.bigPow ⟨bq, neutralDimension⟩ with
        | none =>
            some (.error (.notInDomain
              (.table [("x", .unitV ua), ("y", .unitV ⟨bq, neutralDimension⟩)])
              "can only compute x^y if y is an integer neutral unit and x is not negative"), st)
        | some r => some (.ok (.unitV r), st)
  | "^/" =>
      liftCast (asUnit a) st fun ua => liftCast (asNeutral b) st fun bq =>
        match ua.root ext.mathRoot ⟨bq, neutralDimension⟩ with
        | none =>
            some (.error (.notInDomain
              (.table [("x", .unitV ua), ("y", .unitV ⟨bq, neutralDimension⟩)])
              "can only compute x^(1/y) if y is a non-zero integer neutral unit and x is not negative (unless y is odd)"), st)
        | some r => some (.ok (.unitV r), st)
  | "<" =>
      liftCast (asUnit a) st fun ua => liftCast (asUnit b) st fun ub =>
        if !dimEq ua.dim ub.dim then
          some (.error (.dimensionMismatch ua.dim ub.dim), st)
        else some (.ok (.bool (ua.value < ub.value)), st)
  | ">" =>
      liftCast (asUnit a) st fun ua => liftCast (asUnit b) st fun ub =>
        if !dimEq ua.dim ub.dim then
          some (.error (.dimensionMismatch ua.dim ub.dim), st)
        else some (.ok (.bool (ub.value < ua.value)), st)
  | "<=" =>
      liftCast (asUnit a) st fun ua => liftCast (asUnit b) st fun ub =>
        if !dimEq ua.dim ub.dim then
          some (.error (.dimensionMismatch ua.dim ub.dim), st)
        else some (.ok (.bool (ua.value ≤ ub.value)), st)
  | ">=" =>
      liftCast (asUnit a) st fun ua => liftCast (asUnit b) st fun ub =>
        if !dimEq ua.dim ub.dim then
          some (.error (.dimensionMismatch ua.dim ub.dim), st)
        else some (.ok (.bool (ub.value ≤ ua.value)), st)
  | "~=" => some (.ok (.bool (weakEquality fuel a b)), st)
  | ".=" =>
      liftCast (asSymb a) st fun name =>
        some (.ok b, st.setName name b)
  | "++" =>
      liftCast (asStr a) st fun x => liftCast (asStr b) st fun y =>
        some (.ok (.str (x ++ y)), st)
  | "<<" => some (.ok (.native (.composeFn a b)), st)
  | ">>" => some (.ok (.native (.composeFn b a)), st)
  | "|>" => applyFunction ext fuel b a env st
  | "$" => applyFunction ext fuel a b env st
  | "$|" => applyFunction ext fuel a b env st
  | "|?" => some (.ok (.native (.fallback2 a b)), st)
  | "Imp:when" =>
      liftCast (asBool a) st fun condition =>
        if condition then applyFunction ext fuel b unitValue env st
        else some (.ok unitValue, st)
  | "Str:=" =>
      liftCast (asStr a) st fun x => liftCast (asStr b) st fun y =>
        some (.ok (.bool (x == y)), st)
  | "Str:!=" =>
      liftCast (asStr a) st fun x => liftCast (asStr b) st fun y =>
        some (.ok (.bool (x != y)), st)
  | _ => none
termination_by structural fuel _ _ _ _ _ => fuel

end

/-! ## Prelude environment (`makeEnv` in `interpreter.ts`) -/

/-- `_makeModule(name, table)`: a native responding to symbol keys via the
table extended with the `__table__` self-entry. -/
def mkModule (name : String) (table : List (String × Value)) : Value :=
  .native (.moduleFn name (setAssoc "__table__" (.table table) table))

/-- The `Str` module. -/
def moduleStr : Value :=
  mkModule "Str"
    [("=", .native (.binop "Str:=")),
     ("!=", .native (.binop "Str:!=")),
     ("lower?", .native (.ext "Str:lower?")),
     ("upper?", .native (.ext "Str:upper?")),
     ("from", .native (.ext "Str:from"))]

/-- The `Sym` module. -/
def moduleSym : Value := mkModule "Sym" [("is", .native .symIs0)]

/-- The `Refl` module. -/
def moduleRefl : Value :=
  mkModule "Refl"
    [("lex", .native (.ext "Refl:lex")),
     ("parse", .native (.ext "Refl:parse")),
     ("get_closure", .native (.getClosure false)),
     ("get_total_closure", .native (.getClosure true))]

/-- The `IO` module; `location` is the host's `process.cwd()`. -/
def moduleIO (location : String) : Value :=
  mkModule "IO"
    [("require", .native (.ext "IO:require")),
     ("unpack", .native .ioUnpack),
     ("location", .str location),
     ("log", .native (.ext "IO:log")),
     ("readLine", .native (.ext "IO:readLine")),
     ("debug", .native (.ext "IO:debug")),
     ("define", .native .ioDefine),
     ("forget", .native .ioForget),
     ("try", .native .ioTry),
     ("locals", .native (.ext "IO:locals")),
     ("exit", .native (.ext "IO:exit"))]

/-- The `Imp` module. -/
def moduleImp : Value :=
  mkModule "Imp"
    [("when", .native (.binop "Imp:when")),
     ("chain", .native .chain),
     ("early_return", .native (.ext "Imp:early_return")),
     ("while", .native (.ext "Imp:while"))]

/-- Dimension of `meters` (`{L: 1}`). -/
def dimL : Dim := { neutralDimension with l := 1 }

/-- Dimension of `kilograms` (`{M: 1}`). -/
def dimM : Dim := { neutralDimension with m := 1 }

/-- Dimension of `seconds` (`{T: 1}`). -/
def dimT : Dim := { neutralDimension with t := 1 }

/-- The `names` map of the environment `makeEnv` builds, in the source's
entry order. -/
def preludeNames (location : String) : List (String × Value) :=
  [("+", .native (.binop "+")),
   ("-", .native (.binop "-")),
   ("*", .native (.binop "*")),
   ("/", .native (.binop "/")),
   ("^", .native (.binop "^")),
   ("^/", .native (.binop "^/")),
   ("<", .native (.binop "<")),
   (">", .native (.binop ">")),
   ("<=", .native (.binop "<=")),
   (">=", .native (.binop ">=")),
   ("~=", .native (.binop "~=")),
   (".=", .native (.binop ".=")),
   ("meters", .native (.dimCtor dimL)),
   ("kilograms", .native (.dimCtor dimM)),
   ("seconds", .native (.dimCtor dimT)),
   ("++", .native (.binop "++")),
   ("<<", .native (.binop "<<")),
   (">>", .native (.binop ">>")),
   ("|>", .native (.binop "|>")),
   ("$", .native (.binop "$")),
   ("$|", .native (.binop "$|")),
   ("true", .bool true),
   ("false", .bool false),
   ("fallback", .native (.binop "|?")),
   ("|?", .native (.binop "|?")),
   ("Str", moduleStr),
   ("Sym", moduleSym),
   ("Refl", moduleRefl),
   ("IO", moduleIO location),
   ("Imp", moduleImp)]

/-- A fresh `Interpreter`'s store: one environment node (built by
`makeEnv(h, null)`), which is also the node `setName`/`deleteName` mutate. -/
def freshStore (location : String) : Store :=
  ⟨[⟨none, preludeNames location⟩], 0⟩

/-! ## Interpreter methods (`interpreter.ts`, `src/unnamed/part_006`) -/

/-- `Interpreter.runAst(expr)`: interpret against `this.env`, wrapping a
runtime error into a `LangError`. -/
def runAst (ext : ExtSem) (fuel : Nat) (e : Expr) (st : Store) :
    Option (Except LangError Value × Store) :=
  match interpret ext fuel e st.rootIdx st with
  | none => none
  | some (.ok v, st') => some (.ok v, st')
  | some (.error err, st') => some (.error (.runtimeError err), st')

/-- `StatefulParser.parseMultiline(stream)`: run `this.parse` until the
stream is empty.  The single-expression parser (`makeParser`) is a
parameter; `gas` bounds the iteration count (the JS loop diverges if
`parse` consumes nothing). -/
def parseMultiline
    (parse : List Token → Except String (Expr × List Token)) :
    Nat → List Token → Option (Except LangError (List Expr))
  | 0, _ => none
  | gas + 1, stream =>
      if stream.length ≠ 0 then
        match parse stream with
        | .error msg => some (.error (.parseError msg))
        | .ok (e, stream') =>
            match parseMultiline parse gas stream' with
            | none => none
            | some (.error err) => some (.error err)
            | some (.ok es) => some (.ok (e :: es))
      else some (.ok [])

/-- JavaScript `String.prototype.trim`. -/
def jsTrim (s : String) : String :=
  String.mk (((s.toList.dropWhile isJsSpace).reverse.dropWhile isJsSpace).reverse)

/-- The loop of `runMultilineWithCallback` as consumed by
`runMultilineReturnLast`: run each expression, remember the last value,
stop on the first error. -/
def runExprsLast (ext : ExtSem) (fuel : Nat) :
    List Expr → Store → Option Value → Option (Except LangError Value × Store)
  | [], st, none =>
      some (.error (.runtimeError
        (.other (.str "runMultilineReturnLast: no value got produced"))), st)
  | [], st, some v => some (.ok v, st)
  | e :: rest, st, last =>
      match runAst ext fuel e st with
      | none => none
      | some (.error err, st') => some (.error err, st')
      | some (.ok v, st') =>
          match rest, v with
          | rest, v => runExprsLast ext fuel rest st' (some v)

/-- `Interpreter.runMultilineReturnLast(source)`: trim, lex, parse all
expressions, evaluate them in order; if no value was produced, the
`Other(Str(…))` runtime error. -/
def runMultilineReturnLast (ext : ExtSem)
    (parse : List Token → Except String (Expr × List Token))
    (fuel : Nat) (source : String) (st : Store) :
    Option (Except LangError Value × Store) :=
  match lex (jsTrim source) with
  | .error msg => some (.error (.lexError msg), st)
  | .ok stream =>
      match parseMultiline parse (stream.length + 1) stream with
      | none => none
      | some (.error err) => some (.error err, st)
      | some (.ok exprs) => runExprsLast ext fuel exprs st none

/-! ## Claim C1: the shunting-yard comparison rule and associativity -/

theorem popWhile_length (my : Priority) (options : ParseOptions) :
    ∀ (ops : List Op) (es : List Expr) (ops' : List Op) (es' : List Expr),
      popWhile my options ops es = some (ops', es') → ops'.length ≤ ops.length := by
  intro ops
  induction ops with
  | nil =>
      intro es ops' es' h
      unfold popWhile at h
      simp only [Option.some.injEq, Prod.mk.injEq] at h
      obtain ⟨rfl, rfl⟩ := h
      simp
  | cons top rest ih =>
      intro es ops' es' h
      unfold popWhile at h
      split at h
      · split at h
        · have := ih _ _ _ h
          simp only [List.length_cons]
          omega
        · simp at h
      · simp only [Option.some.injEq, Prod.mk.injEq] at h
        obtain ⟨rfl, rfl⟩ := h
        exact le_refl _

/-- Example operator table for the associativity claim: `+` at strength 6,
Left; `|?` at strength 6, Right (other operators irrelevant). -/
def assocOptions : ParseOptions :=
  ⟨[("+", ⟨6, .left⟩), ("|?", ⟨6, .right⟩)], ⟨20, .right⟩, ⟨5, .left⟩⟩

/-- C1.  In `shuntingYard`, when an incoming operator (priority `(sCur,
dirCur)`) meets a non-empty operator stack with top priority `(sTop,
dirTop)`, a reduction is performed exactly when `sCur < sTop`, or
`sCur = sTop` and `dirCur` is Left (first two conjuncts: the inner loop
leaves the stacks untouched iff the condition fails, and the condition is
exactly that comparison); consequently `a+b+c` with `+` at `(6, Left)`
parses left-nested and `a|?b|?c` with `|?` at `(6, Right)` parses
right-nested (last two conjuncts). -/
theorem shuntingYard_reduction_rule :
    (∀ (options : ParseOptions) (cur top : Op) (rest : List Op) (es : List Expr),
      popWhile (getPriority cur options) options (top :: rest) es = some (top :: rest, es)
        ↔ topBeats (getPriority cur options) (getPriority top options) = false)
    ∧ (∀ my top : Priority, topBeats my top = true ↔
        (my.strength < top.strength
          ∨ (my.strength = top.strength ∧ my.direction = .left)))
    ∧ shuntingYard ⟨.name "a", [(.infixOp "+", .name "b"), (.infixOp "+", .name "c")]⟩
        assocOptions
        = some (.app (.app (.name "+")
            (.app (.app (.name "+") (.name "a")) (.name "b"))) (.name "c"))
    ∧ shuntingYard ⟨.name "a", [(.infixOp "|?", .name "b"), (.infixOp "|?", .name "c")]⟩
        assocOptions
        = some (.app (.app (.name "|?") (.name "a"))
            (.app (.app (.name "|?") (.name "b")) (.name "c"))) := by
  refine ⟨?_, ?_, rfl, rfl⟩
  · intro options cur top rest es
    constructor
    · intro h
      cases hb : topBeats (getPriority cur options) (getPriority top options) with
      | false => rfl
      | true =>
          exfalso
          unfold popWhile at h
          rw [hb] at h
          simp only [if_true] at h
          split at h
          · have := popWhile_length _ _ _ _ _ _ h
            simp at this
          · simp at h
    · intro h
      unfold popWhile
      rw [h]
      simp
  · intro my top
    unfold topBeats
    cases my with
    | mk s d =>
        cases top with
        | mk s' d' =>
            cases d <;> simp [decide_eq_true_eq] <;> omega

/-! ## Claim C5: `capturedNames` of `makeLambda` -/

theorem filter_flatMap {α β : Type} (l : List α) (f : α → List β) (p : β → Bool) :
    (l.flatMap f).filter p = l.flatMap (fun a => (f a).filter p) := by
  induction l with
  | nil => simp
  | cons x xs ih => simp [List.flatMap_cons, List.filter_append, ih]

theorem flatMap_congr {α β : Type} {l : List α} {f g : α → List β}
    (h : ∀ a ∈ l, f a = g a) : l.flatMap f = l.flatMap g := by
  induction l with
  | nil => simp
  | cons x xs ih =>
      simp only [List.flatMap_cons]
      rw [h x (by simp), ih (fun a ha => h a (by simp [ha]))]

/-- The free-occurrence list of an expression: `_getCapturedNames` with an
empty exclusion list.  (A nested `Lam` still contributes its stored
`capturedNames`, as the claim specifies.) -/
def freeOccurrences (e : Expr) : List String := getCapturedNamesRaw e []

theorem raw_filter : (e : Expr) → ∀ excl : List String,
    getCapturedNamesRaw e excl = (freeOccurrences e).filter (fun n => n ∉ excl)
  | .name n => by
      intro excl
      by_cases h : n ∈ excl <;>
        simp [getCapturedNamesRaw, freeOccurrences, List.filter, h]
  | .app f a => by
      intro excl
      have hf := raw_filter f excl
      have ha := raw_filter a excl
      simp only [getCapturedNamesRaw, freeOccurrences, List.filter_append] at *
      rw [hf, ha]
  | .dec _ => by intro excl; simp [getCapturedNamesRaw, freeOccurrences]
  | .str _ => by intro excl; simp [getCapturedNamesRaw, freeOccurrences]
  | .symbol _ => by intro excl; simp [getCapturedNamesRaw, freeOccurrences]
  | .table pairs => by
      intro excl
      simp only [getCapturedNamesRaw, freeOccurrences]
      rw [filter_flatMap]
      exact flatMap_congr fun p _ => raw_filter p.1.2 excl
  | .cond i t e => by
      intro excl
      have hi := raw_filter i excl
      have ht := raw_filter t excl
      have he := raw_filter e excl
      simp only [getCapturedNamesRaw, freeOccurrences, List.filter_append] at *
      rw [hi, ht, he]
  | .lam _ _ captured => by
      intro excl
      simp only [getCapturedNamesRaw, freeOccurrences]
      have hid : captured.filter (fun n => decide (n ∉ ([] : List String))) = captured :=
        List.filter_eq_self.mpr (by simp)
      rw [hid]
termination_by e => sizeOf e
decreasing_by
  all_goals simp_wf
  all_goals try omega
  · obtain ⟨⟨k, sub⟩, hmem⟩ := p
    have h := List.sizeOf_lt_of_mem hmem
    simp at h ⊢
    omega

theorem uniqueFirst_mem : (l : List String) → ∀ a, a ∈ uniqueFirst l ↔ a ∈ l
  | [] => by simp [uniqueFirst]
  | x :: xs => by
      intro a
      have ih := uniqueFirst_mem (xs.filter (· ≠ x)) a
      unfold uniqueFirst
      simp only [List.mem_cons, ih, List.mem_filter]
      by_cases hax : a = x
      · simp [hax]
      · simp [hax]
termination_by l => l.length
decreasing_by
  have h := List.length_filter_le (fun y => decide (y ≠ x)) xs
  simp at h ⊢
  omega

theorem uniqueFirst_sublist : (l : List String) → (uniqueFirst l).Sublist l
  | [] => by simp [uniqueFirst]
  | x :: xs => by
      unfold uniqueFirst
      have ih := uniqueFirst_sublist (xs.filter (· ≠ x))
      exact List.Sublist.cons₂ x (ih.trans (List.filter_sublist xs))
termination_by l => l.length
decreasing_by
  have h := List.length_filter_le (fun y => decide (y ≠ x)) xs
  simp at h ⊢
  omega

theorem uniqueFirst_nodup : (l : List String) → (uniqueFirst l).Nodup
  | [] => by simp [uniqueFirst]
  | x :: xs => by
      unfold uniqueFirst
      refine List.nodup_cons.2 ⟨?_, uniqueFirst_nodup (xs.filter (· ≠ x))⟩
      intro hmem
      have := (uniqueFirst_mem (xs.filter (· ≠ x)) x).1 hmem
      simp at this
termination_by l => l.length
decreasing_by
  all_goals
    have h := List.length_filter_le (fun y => decide (y ≠ x)) xs
    simp at h ⊢
    omega

/-- C5.  `makeLambda(param, body)` stores
`capturedNames = unique(free(body) \ bound(param))`: the free-occurrence
list of the body (with nested `Lam`s contributing their stored
`capturedNames`) filtered against the parameter's bound names, deduplicated
(conjunct 1); deduplication removes exactly the duplicates while keeping
the list a sublist of the original — i.e. first-occurrence order
(conjunct 2); `captured_names(x. y) = ["y"]` and
`captured_names(f. x. f x) = []` (conjuncts 3 and 4). -/
theorem makeLambda_capturedNames :
    (∀ (arg : LamArg) (body : Expr),
        (makeLambda arg body).capturedOf
          = uniqueFirst ((freeOccurrences body).filter
              (fun n => n ∉ extractNamesFromArg arg)))
    ∧ (∀ l : List String,
        (uniqueFirst l).Nodup ∧ (uniqueFirst l).Sublist l
          ∧ ∀ a, a ∈ uniqueFirst l ↔ a ∈ l)
    ∧ (makeLambda (.argSingle "x") (.name "y")).capturedOf = ["y"]
    ∧ (makeLambda (.argSingle "f")
        (makeLambda (.argSingle "x") (.app (.name "f") (.name "x")))).capturedOf = [] := by
  refine ⟨?_, fun l => ⟨uniqueFirst_nodup l, uniqueFirst_sublist l, uniqueFirst_mem l⟩,
    ?_, ?_⟩
  · intro arg body
    show uniqueFirst (getCapturedNamesRaw body (extractNamesFromArg arg)) = _
    rw [raw_filter body (extractNamesFromArg arg)]
  · simp [makeLambda, Expr.capturedOf, getCapturedNames, extractNamesFromArg,
      getCapturedNamesRaw, uniqueFirst]
  · simp [makeLambda, Expr.capturedOf, getCapturedNames, extractNamesFromArg,
      getCapturedNamesRaw, uniqueFirst]

/-! ## Claim C7: the shape of `name` tokens -/

theorem toList_mk (l : List Char) : (String.mk l).toList = l := rfl

/-- Whether a whole token matches the claim's pattern
`[A-Za-z_][A-Za-z0-9_]*([?!]+)?`: a leading letter or underscore, a run of
word characters, and `?`/`!` admitted only as a trailing suffix. -/
def isTrailBang : List Char → Bool
  | [] => true
  | c :: rest => (c = '?' || c = '!') && isTrailBang rest

def claimNamePattern (s : String) : Bool :=
  match s.toList with
  | [] => false
  | c :: rest => (c.isAlpha || c = '_') && isTrailBang (rest.dropWhile isWordChar)

/-- Whether a whole token matches the pattern the code actually uses,
`(?![0-9?!])[a-zA-Z_0-9?!]+`: it must not start with a digit, `?` or `!`,
but admits `?`/`!` anywhere after that. -/
def codeNamePattern (s : String) : Bool :=
  match s.toList with
  | [] => false
  | c :: rest => !(c.isDigit || c = '?' || c = '!') && (c :: rest).all isNameChar

/-- C7 counterexample.  `a?b` lexes as a single `name` token, although the
claim's pattern `[A-Za-z_][A-Za-z0-9_]*([?!]+)?` rejects it (`?` may not
occur between word characters per the claim). -/
theorem lex_name_interleaved_counterexample :
    lex "a?b" = .ok [{ type := .name, position := 0, content := "a?b" }]
      ∧ claimNamePattern "a?b" = false :=
  ⟨rfl, rfl⟩

theorem altMatch_name (rest : List Char) (n : Nat)
    (h : altMatch rest = some (.name, n)) : matchName rest = some n := by
  unfold altMatch at h
  repeat' split at h
  all_goals simp_all

theorem matchName_shape (rest : List Char) (n : Nat) (h : matchName rest = some n) :
    codeNamePattern (String.mk (rest.take n)) = true := by
  unfold matchName at h
  split at h
  · simp at h
  · next c tail =>
      split at h
      · next hc =>
          simp only [Option.some.injEq] at h
          subst h
          simp only [Bool.and_eq_true] at hc
          have hpos := countWhile_pos isNameChar c tail hc.1
          have htake : (c :: tail).take (countWhile isNameChar (c :: tail))
              = (c :: tail).takeWhile isNameChar := by
            have hpre := List.takeWhile_prefix (l := c :: tail) (p := isNameChar)
            rw [List.prefix_iff_eq_take] at hpre
            exact hpre.symm
          rw [htake]
          have hall : ∀ d ∈ (c :: tail).takeWhile isNameChar, isNameChar d = true :=
            fun d hd => List.mem_takeWhile_imp hd
          have hhd : (c :: tail).takeWhile isNameChar = c :: tail.takeWhile isNameChar := by
            rw [List.takeWhile_cons_of_pos hc.1]
          rw [hhd]
          unfold codeNamePattern
          rw [toList_mk]
          simp only [Bool.and_eq_true, List.all_eq_true]
          refine ⟨by simpa using hc.2, ?_⟩
          intro d hd
          exact hall d (by rw [hhd]; exact hd)
      · simp at h

theorem lexLoop_name_tokens (iw : Bool) :
    ∀ (gas : Nat) (rem : List Char) (pos : Nat) (toks : List Token),
      lexLoop iw gas rem pos = .ok toks →
      ∀ t ∈ toks, t.type = .name → codeNamePattern t.content = true := by
  intro gas
  induction gas with
  | zero =>
      intro rem pos toks h t ht htype
      unfold lexLoop at h
      split at h
      · simp only [Except.ok.injEq] at h
        subst h
        simp at ht
      · simp at h
  | succ gas ih =>
      intro rem pos toks h t ht htype
      unfold lexLoop at h
      split at h
      · split at h
        · simp only [Except.ok.injEq] at h
          subst h
          simp at ht
        · simp at h
      · next p k len hfm =>
          split at h
          · next hp =>
              subst hp
              split at h
              · simp at h
              · next toks' hrec =>
                  split at h
                  · next hk =>
                      simp only [Except.ok.injEq] at h
                      subst h
                      simp only [List.mem_cons] at ht
                      rcases ht with rfl | ht
                      · have halt := (findMatch_some rem 0 k len hfm).1
                        rw [List.drop_zero] at halt
                        simp only at htype
                        subst htype
                        have hmn := altMatch_name rem len halt
                        exact matchName_shape rem len hmn
                      · exact ih _ _ _ hrec t ht htype
                  · simp only [Except.ok.injEq] at h
                    subst h
                    exact ih _ _ _ hrec t ht htype
          · simp at h

/-- C7 amended.  Not every `name` token matches
`[A-Za-z_][A-Za-z0-9_]*([?!]+)?` (see the counterexample): the pattern the
lexer implements is `(?![0-9?!])[a-zA-Z_0-9?!]+` — a `name` token never
starts with a digit, `?` or `!`, but admits `?`/`!` anywhere after the
first character, not only as a trailing suffix; in particular `a?b` is a
single `name` token. -/
theorem lex_name_tokens_match_code_pattern :
    ∀ (src : String) (iw : Bool) (toks : List Token),
      lex src iw = .ok toks → ∀ t ∈ toks, t.type = .name →
        codeNamePattern t.content = true :=
  fun src iw toks h => lexLoop_name_tokens iw src.toList.length src.toList 0 toks h

/-- Witness for C7's amended theorem at the concrete input `a?b`. -/
theorem lex_name_tokens_match_code_pattern_witness :
    codeNamePattern "a?b" = true :=
  lex_name_tokens_match_code_pattern "a?b" false
    [{ type := .name, position := 0, content := "a?b" }] rfl
    { type := .name, position := 0, content := "a?b" } (List.mem_singleton.mpr rfl) rfl

/-! ## Claim C3: the `^/` domain guard (code bug) -/

/-- C3 (code-bug evidence).  The claim — and the `NotInDomain` message the
interpreter itself attaches to `^/` ("x is not negative (unless y is
odd)") — say the even-root-of-negative case is the domain error.  The
guard in `Unit.root` tests `unit.value.toNumber() % 2 !== 0`, i.e. rejects
a negative radicand exactly when the root index is *odd*: `(-8) ^/ 3`
(an odd root of a negative, fine per the claim) is refused with
`NotInDomain` (conjuncts 1 and 3), while `(-4) ^/ 2` (an even root of a
negative, the case the claim says must fail) passes the guard (conjunct 2;
the implementation then computes `Math.pow(-4, 1/2) = NaN` and
`new Big(NaN)` throws).  Quantified over the floating-point root `mathRoot`
the success magnitude delegates to. -/
theorem root_domain_guard_inverted :
    (∀ mathRoot : ℚ → ℚ → ℚ,
      UnitV.root mathRoot ⟨-8, neutralDimension⟩ ⟨3, neutralDimension⟩ = none)
    ∧ (∀ mathRoot : ℚ → ℚ → ℚ,
      UnitV.root mathRoot ⟨-4, neutralDimension⟩ ⟨2, neutralDimension⟩
        = some ⟨mathRoot (-4) 2, neutralDimension.divBy 2⟩)
    ∧ (∀ (ext : ExtSem) (fuel env : Nat) (st : Store),
      binOpSem ext (fuel + 1) "^/" (.unitV ⟨-8, neutralDimension⟩)
          (.unitV ⟨3, neutralDimension⟩) env st
        = some (.error (.notInDomain
            (.table [("x", .unitV ⟨-8, neutralDimension⟩),
                     ("y", .unitV ⟨3, neutralDimension⟩)])
            "can only compute x^(1/y) if y is a non-zero integer neutral unit and x is not negative (unless y is odd)"), st)) := by
  refine ⟨fun mathRoot => ?_, fun mathRoot => ?_, fun ext fuel env st => ?_⟩
  · rfl
  · rfl
  · rfl

/-! ## Claim C9: the `^` domain guard and dimension scaling -/

/-- C9.  `Unit.pow` fails exactly when the base is negative, both operands
are zero, the exponent is not dimensionless, or the exponent is not an
integer (conjunct 1); on success the dimension is the base's dimension with
every exponent multiplied by the exponent's magnitude (conjunct 2); through
the `^` built-in, a negative base and `0 ^ 0` surface as `NotInDomain`
(conjuncts 3 and 4).  Quantified over the `big.js` exponentiation
`bigPow` the success magnitude delegates to. -/
theorem powGuard_none (bigPow : ℚ → ℤ → ℚ) (a b : UnitV) :
    UnitV.pow bigPow a b = none ↔
      (a.value < 0 ∨ (a.value = 0 ∧ b.value = 0)
        ∨ dimEq b.dim neutralDimension = false ∨ b.value.den ≠ 1) := by
  unfold UnitV.pow UnitV.isIntValue
  split
  · next hcond =>
      simp only [true_iff]
      revert hcond
      simp only [Bool.or_eq_true, decide_eq_true_eq, Bool.and_eq_true, beq_iff_eq,
        Bool.not_eq_true', beq_eq_false_iff_ne, ne_eq]
      tauto
  · next hcond =>
      simp only [reduceCtorEq, false_iff]
      intro hr
      apply hcond
      simp only [Bool.or_eq_true, decide_eq_true_eq, Bool.and_eq_true, beq_iff_eq,
        Bool.not_eq_true', beq_eq_false_iff_ne, ne_eq]
      tauto

theorem pow_domain_and_dimension :
    (∀ (bigPow : ℚ → ℤ → ℚ) (a b : UnitV),
      UnitV.pow bigPow a b = none ↔
        (a.value < 0 ∨ (a.value = 0 ∧ b.value = 0)
          ∨ dimEq b.dim neutralDimension = false ∨ b.value.den ≠ 1))
    ∧ (∀ (bigPow : ℚ → ℤ → ℚ) (a b r : UnitV),
        UnitV.pow bigPow a b = some r →
          r.dim = a.dim.scale b.value ∧ r.value = bigPow a.value b.value.num)
    ∧ (∀ (ext : ExtSem) (fuel env : Nat) (st : Store) (a : UnitV) (bq : ℚ),
        a.value < 0 →
        binOpSem ext (fuel + 1) "^" (.unitV a) (.unitV ⟨bq, neutralDimension⟩) env st
          = some (.error (.notInDomain
              (.table [("x", .unitV a), ("y", .unitV ⟨bq, neutralDimension⟩)])
              "can only compute x^y if y is an integer neutral unit and x is not negative"), st))
    ∧ (∀ (ext : ExtSem) (fuel env : Nat) (st : Store),
        binOpSem ext (fuel + 1) "^" (.unitV ⟨0, neutralDimension⟩)
            (.unitV ⟨0, neutralDimension⟩) env st
          = some (.error (.notInDomain
              (.table [("x", .unitV ⟨0, neutralDimension⟩),
                       ("y", .unitV ⟨0, neutralDimension⟩)])
              "can only compute x^y if y is an integer neutral unit and x is not negative"), st)) := by
  refine ⟨powGuard_none, fun bigPow a b r h => ?_,
    fun ext fuel env st a bq ha => ?_, fun ext fuel env st => ?_⟩
  · unfold UnitV.pow at h
    split at h
    · simp at h
    · simp only [Option.some.injEq] at h
      subst h
      exact ⟨rfl, rfl⟩
  · have hstep : binOpSem ext (fuel + 1) "^" (.unitV a) (.unitV ⟨bq, neutralDimension⟩) env st
        = (match UnitV.pow ext.bigPow a ⟨bq, neutralDimension⟩ with
           | none =>
               some (.error (.notInDomain
                 (.table [("x", .unitV a), ("y", .unitV ⟨bq, neutralDimension⟩)])
                 "can only compute x^y if y is an integer neutral unit and x is not negative"), st)
           | some r => some (.ok (.unitV r), st)) := rfl
    have hp : UnitV.pow ext.bigPow a ⟨bq, neutralDimension⟩ = none :=
      (powGuard_none ext.bigPow a ⟨bq, neutralDimension⟩).mpr (Or.inl ha)
    rw [hstep, hp]
  · rfl

/-- Witness for C9: `UnitV.pow` at concrete inputs discharging its
hypotheses (`4 ^ 2` succeeds with quadrupled... doubled exponents, and the
`^` built-in at base `-1`). -/
theorem pow_domain_and_dimension_witness :
    ((⟨(0 : ℚ), neutralDimension.scale 2⟩ : UnitV).dim = neutralDimension.scale 2
      ∧ (⟨(0 : ℚ), neutralDimension.scale 2⟩ : UnitV).value = (fun (_ : ℚ) (_ : ℤ) => (0 : ℚ)) 4 2)
    ∧ binOpSem ⟨fun _ _ _ _ _ => none, fun _ _ => 0, fun _ _ => 0, fun _ _ => 0⟩ 1 "^"
        (.unitV ⟨-1, neutralDimension⟩) (.unitV ⟨2, neutralDimension⟩) 0 ⟨[], 0⟩
        = some (.error (.notInDomain
            (.table [("x", .unitV ⟨-1, neutralDimension⟩),
                     ("y", .unitV ⟨2, neutralDimension⟩)])
            "can only compute x^y if y is an integer neutral unit and x is not negative"), ⟨[], 0⟩) :=
  ⟨pow_domain_and_dimension.2.1 (fun _ _ => 0) ⟨4, neutralDimension⟩ ⟨2, neutralDimension⟩
      ⟨0, neutralDimension.scale 2⟩ (by rfl),
   pow_domain_and_dimension.2.2.1 ⟨fun _ _ _ _ _ => none, fun _ _ => 0, fun _ _ => 0, fun _ _ => 0⟩
      0 0 ⟨[], 0⟩ ⟨-1, neutralDimension⟩ 2 (by norm_num)⟩

/-! ## Claim C4: `~=` on tables (code bug) -/

/-- C4 (code-bug evidence).  The table branch of `_weakEquality` compares
the two freshly-built sorted key arrays with JavaScript `!==`, which on
objects is reference inequality and therefore always true; the branch
returns `false` for *every* pair of tables and the pointwise comparison
loop below it is dead code.  Hence `a ~= b` is `Bool(false)` for any two
tables `a`, `b` — in particular `{} ~= {}` — although the claim (and the
spec's "structural weak equality") requires `Bool(true)` for tables with
equal keys and weakly-equal values. -/
theorem weakEquality_tables_always_false :
    (∀ (fuel : Nat) (aT bT : List (String × Value)),
      weakEquality (fuel + 1) (.table aT) (.table bT) = false)
    ∧ (∀ (ext : ExtSem) (fuel env : Nat) (st : Store),
      binOpSem ext (fuel + 1) "~=" (.table []) (.table []) env st
        = some (.ok (.bool (weakEquality fuel (.table []) (.table []))), st))
    ∧ (∀ (ext : ExtSem) (loc : String),
      interpret ext 20 (.app (.app (.name "~=") (.table [])) (.table [])) 0
          (freshStore loc)
        = some (.ok (.bool false), freshStore loc)) := by
  refine ⟨fun fuel aT bT => ?_, fun ext fuel env st => rfl, fun ext loc => rfl⟩
  cases fuel with
  | zero => rfl
  | succ n => rfl

/-! ## Claim C8: `|?` fallback semantics -/

/-- C8.  Applying the callable produced by `p |? q` to a key first applies
`p`; a success is returned as is, a `MissingKey` failure falls back to
applying `q` (in the store state left by `p`'s attempt), and any other
error propagates unchanged without consulting `q` (conjunct 1, an exact
characterisation of the fallback native's one application step).
Concretely, `({x: 1} |? {y: 2}) :y` evaluates to `Unit(2)` (conjunct 2),
and with a primary that fails with a non-`MissingKey` error —
`(5 |? {y: 2}) :y` — that error surfaces unchanged even though the
fallback table could have answered (conjunct 3). -/
theorem fallback_semantics :
    (∀ (ext : ExtSem) (fuel : Nat) (p q key : Value) (env : Nat) (st : Store),
      applyNative ext (fuel + 1) (.fallback2 p q) key env st
        = match applyFunction ext fuel p key env st with
          | none => none
          | some (.ok v, st') => some (.ok v, st')
          | some (.error err, st') =>
              match err with
              | .missingKey _ => applyFunction ext fuel q key env st'
              | _ => some (.error err, st'))
    ∧ (∀ (ext : ExtSem) (loc : String),
        interpret ext 20 (.app (.app (.app (.name "|?") (.table [("x", .dec 1)]))
            (.table [("y", .dec 2)])) (.symbol "y")) 0 (freshStore loc)
          = some (.ok (.unitV ⟨2, neutralDimension⟩), freshStore loc))
    ∧ (∀ (ext : ExtSem) (loc : String),
        interpret ext 20 (.app (.app (.app (.name "|?") (.dec 5))
            (.table [("y", .dec 2)])) (.symbol "y")) 0 (freshStore loc)
          = some (.error (.unexpectedType "table|function|native"
              (.unitV ⟨5, neutralDimension⟩)), freshStore loc)) :=
  ⟨fun ext fuel p q key env st => rfl, fun ext loc => rfl, fun ext loc => rfl⟩

/-! ## Claim C10: `runMultilineReturnLast` on empty input -/

/-- C10.  When the (trimmed) source lexes to an empty token stream — so the
parser yields no expressions at all, as for an empty or whitespace-only
string — `runMultilineReturnLast` does not succeed with a default value: it
returns the `runtimeError` wrapping
`Other(Str("runMultilineReturnLast: no value got produced"))`, for any
single-expression parser, external semantics, fuel and interpreter state
(conjunct 1); conjuncts 2 and 3 instantiate this at the empty and a
whitespace-only source. -/
theorem runMultilineReturnLast_no_value :
    (∀ (ext : ExtSem) (parse : List Token → Except String (Expr × List Token))
       (fuel : Nat) (st : Store) (src : String),
      lex (jsTrim src) = .ok [] →
      runMultilineReturnLast ext parse fuel src st
        = some (.error (.runtimeError
            (.other (.str "runMultilineReturnLast: no value got produced"))), st))
    ∧ (∀ (ext : ExtSem) (parse : List Token → Except String (Expr × List Token))
         (fuel : Nat) (st : Store),
        runMultilineReturnLast ext parse fuel "" st
          = some (.error (.runtimeError
              (.other (.str "runMultilineReturnLast: no value got produced"))), st))
    ∧ (∀ (ext : ExtSem) (parse : List Token → Except String (Expr × List Token))
         (fuel : Nat) (st : Store),
        runMultilineReturnLast ext parse fuel "  \n\t " st
          = some (.error (.runtimeError
              (.other (.str "runMultilineReturnLast: no value got produced"))), st)) := by
  refine ⟨fun ext parse fuel st src h => ?_, fun ext parse fuel st => rfl,
    fun ext parse fuel st => rfl⟩
  unfold runMultilineReturnLast
  rw [h]
  rfl

/-- Witness for C10: the hypothesis-bearing conjunct applied at the empty
source with concrete parser, external semantics and state. -/
theorem runMultilineReturnLast_no_value_witness :
    runMultilineReturnLast ⟨fun _ _ _ _ _ => none, fun _ _ => 0, fun _ _ => 0, fun _ _ => 0⟩
        (fun _ => .error "no parser") 0 "" ⟨[], 0⟩
      = some (.error (.runtimeError
          (.other (.str "runMultilineReturnLast: no value got produced"))), ⟨[], 0⟩) :=
  runMultilineReturnLast_no_value.1
    ⟨fun _ _ _ _ _ => none, fun _ _ => 0, fun _ _ => 0, fun _ _ => 0⟩
    (fun _ => .error "no parser") 0 ⟨[], 0⟩ "" rfl

/-! ## Claim C2: `.=` / `IO:define` mutate only the top-level node, and
closures observe it -/

theorem lookup_setAssoc (n : String) (v : Value) (l : List (String × Value)) :
    List.lookup n (setAssoc n v l) = some v := by
  induction l with
  | nil => simp [setAssoc, List.lookup]
  | cons p rest ih =>
      unfold setAssoc
      split
      · next heq => simp [List.lookup, heq]
      · next hne =>
          rw [List.lookup]
          have : (n == p.1) = false := by
            simp only [beq_eq_false_iff_ne, ne_eq]
            exact fun hh => hne hh.symm
          rw [this]
          exact ih

theorem setName_envs_length (st : Store) (n : String) (v : Value) :
    (st.setName n v).envs.length = st.envs.length := by
  unfold Store.setName
  split <;> simp

theorem setName_rootIdx (st : Store) (n : String) (v : Value) :
    (st.setName n v).rootIdx = st.rootIdx := by
  unfold Store.setName
  split <;> rfl

theorem setName_getElem_ne (st : Store) (n : String) (v : Value) (i : Nat)
    (hne : i ≠ st.rootIdx) : (st.setName n v).envs[i]? = st.envs[i]? := by
  unfold Store.setName
  split
  · simp only
    rw [List.getElem?_set_ne (Ne.symm hne)]
  · rfl

theorem setName_getElem_root (st : Store) (n : String) (v : Value) (node : EnvNode)
    (hnode : st.envs[st.rootIdx]? = some node) :
    (st.setName n v).envs[st.rootIdx]?
      = some { node with names := setAssoc n v node.names } := by
  unfold Store.setName
  rw [hnode]
  simp only
  have hlt : st.rootIdx < st.envs.length := by
    by_contra hge
    rw [List.getElem?_eq_none (by omega)] at hnode
    simp at hnode
  rw [List.getElem?_set_self hlt]

/-- Environment indices whose parent chain reaches the interpreter's
top-level node without crossing a binding for `n` on the way (the node
itself excluded). -/
inductive SeesRoot (st : Store) (n : String) : Nat → Prop
  | root {node : EnvNode} (h : st.envs[st.rootIdx]? = some node) :
      SeesRoot st n st.rootIdx
  | step {i p : Nat} {node : EnvNode} (hne : i ≠ st.rootIdx)
      (hnode : st.envs[i]? = some node) (hmiss : List.lookup n node.names = none)
      (hparent : node.parent = some p) (hrest : SeesRoot st n p) : SeesRoot st n i

theorem seesRoot_lookup (st : Store) (n : String) (v : Value) :
    ∀ (env : Nat), SeesRoot st n env →
      ∃ gas₀, ∀ gas, gas₀ ≤ gas →
        tryLookupName gas n env (st.setName n v) = some (some v) := by
  intro env h
  induction h with
  | root hnode =>
      refine ⟨1, fun gas hgas => ?_⟩
      match gas, hgas with
      | gas + 1, _ =>
          unfold tryLookupName
          rw [setName_getElem_root st n v _ hnode]
          simp only
          rw [lookup_setAssoc]
  | step hne hnode hmiss hparent _ ih =>
      obtain ⟨g0, hg⟩ := ih
      refine ⟨g0 + 1, fun gas hgas => ?_⟩
      match gas, hgas with
      | gas + 1, hgas =>
          unfold tryLookupName
          rw [setName_getElem_ne st n v _ hne]
          rw [hnode]
          simp only
          rw [hmiss, hparent]
          exact hg gas (by omega)

/-- C2.  The binding built-ins go through `setName`: the `.=` built-in
returns its value and the store with `name` re-bound, and the second stage
of `IO:define` does the same (conjunct 1).  `setName` updates only the
`names` field of the interpreter's top-level environment node, in place:
the arena keeps its size, every other node is untouched, and the top-level
node keeps its parent, with only its `names` map extended (conjunct 2).
Consequently a `Fun`'s retained environment reference sees the new binding
through its parent chain whenever no intermediate node shadows the name
(conjunct 3).  Evaluating `:x .= 1; :f .= ({}. x); :x .= 2; f {}` on a
fresh interpreter returns `Unit(2)` (conjunct 4). -/
theorem dotEq_define_mutate_root_env :
    (∀ (ext : ExtSem) (fuel : Nat) (name : String) (value : Value) (env : Nat) (st : Store),
      binOpSem ext (fuel + 1) ".=" (.symbol name) value env st
        = some (.ok value, st.setName name value))
    ∧ (∀ (ext : ExtSem) (fuel : Nat) (varName : String) (arg : Value) (env : Nat) (st : Store),
      applyNative ext (fuel + 1) (.defineSet varName) arg env st
        = some (.ok arg, st.setName varName arg))
    ∧ (∀ (st : Store) (n : String) (v : Value),
      (st.setName n v).envs.length = st.envs.length
      ∧ (st.setName n v).rootIdx = st.rootIdx
      ∧ (∀ i, i ≠ st.rootIdx → (st.setName n v).envs[i]? = st.envs[i]?)
      ∧ (∀ node, st.envs[st.rootIdx]? = some node →
          (st.setName n v).envs[st.rootIdx]?
            = some { node with names := setAssoc n v node.names }))
    ∧ (∀ (st : Store) (n : String) (v : Value) (env : Nat),
        SeesRoot st n env →
        ∃ gas₀, ∀ gas, gas₀ ≤ gas →
          tryLookupName gas n env (st.setName n v) = some (some v))
    ∧ (∀ (ext : ExtSem) (loc : String), ∃ stF : Store,
        runExprsLast ext 20
          [.app (.app (.name ".=") (.symbol "x")) (.dec 1),
           .app (.app (.name ".=") (.symbol "f")) (makeLambda (.argTable []) (.name "x")),
           .app (.app (.name ".=") (.symbol "x")) (.dec 2),
           .app (.name "f") (.table [])]
          (freshStore loc) none
        = some (.ok (.unitV ⟨2, neutralDimension⟩), stF)) := by
  refine ⟨fun ext fuel name value env st => rfl,
    fun ext fuel varName arg env st => rfl,
    fun st n v => ⟨setName_envs_length st n v, setName_rootIdx st n v,
      fun i hi => setName_getElem_ne st n v i hi,
      fun node hnode => setName_getElem_root st n v node hnode⟩,
    fun st n v env h => seesRoot_lookup st n v env h,
    fun ext loc => ?_⟩
  rw [show makeLambda (.argTable []) (.name "x") = .lam (.argTable []) (.name "x") ["x"] by
    simp [makeLambda, getCapturedNames, getCapturedNamesRaw, extractNamesFromArg, uniqueFirst]]
  exact ⟨_, rfl⟩

/-- Witness for C2: the chain-visibility conjunct applied at a concrete
two-node store (a child of the top-level node), and the node-update
conjunct applied at a concrete node. -/
theorem dotEq_define_mutate_root_env_witness :
    (∃ gas₀, ∀ gas, gas₀ ≤ gas →
      tryLookupName gas "x" 1
          ((⟨[⟨none, []⟩, ⟨some 0, []⟩], 0⟩ : Store).setName "x" (.str "v"))
        = some (some (.str "v")))
    ∧ ((⟨[⟨none, []⟩], 0⟩ : Store).setName "x" (.str "v")).envs[(0 : Nat)]?
        = some { parent := none, names := setAssoc "x" (.str "v") [] } :=
  ⟨dotEq_define_mutate_root_env.2.2.2.1 ⟨[⟨none, []⟩, ⟨some 0, []⟩], 0⟩ "x" (.str "v") 1
      (SeesRoot.step (by decide) rfl rfl rfl (SeesRoot.root rfl)),
   (dotEq_define_mutate_root_env.2.2.1 ⟨[⟨none, []⟩], 0⟩ "x" (.str "v")).2.2.2
      ⟨none, []⟩ rfl⟩

/-! ## Claim C6: lex round-trips or reports the first unmatched run -/

/-- Concatenation of the `content` fields of a token stream, in order. -/
def concatContents (toks : List Token) : String :=
  String.mk (toks.flatMap (fun t => t.content.toList))

/-- `LexConsumes rem rem'` holds when the scan reaches the suffix `rem'`
from `rem` by consuming successful matches of the combined regex, each
starting exactly at the current position. -/
inductive LexConsumes : List Char → List Char → Prop
  | refl (rem : List Char) : LexConsumes rem rem
  | step {rem rem' : List Char} (k : TokKind) (len : Nat)
      (h : altMatch rem = some (k, len))
      (hc : LexConsumes (rem.drop len) rem') : LexConsumes rem rem'

theorem lexLoop_covers :
    ∀ (gas : Nat) (rem : List Char) (pos : Nat), rem.length ≤ gas →
      (∃ toks, lexLoop true gas rem pos = .ok toks
        ∧ toks.flatMap (fun t => t.content.toList) = rem
        ∧ lexLoop false gas rem pos
            = .ok (toks.filter (fun t => t.type != TokKind.ws)))
      ∨ (∃ rem' p, LexConsumes rem rem'
          ∧ 0 < p ∧ p ≤ rem'.length
          ∧ (∀ q, q < p → altMatch (rem'.drop q) = none)
          ∧ (p = rem'.length ∨ ∃ k len, altMatch (rem'.drop p) = some (k, len))
          ∧ lexLoop true gas rem pos
              = .error ("I don't understand: " ++ String.mk (rem'.take p))
          ∧ lexLoop false gas rem pos
              = .error ("I don't understand: " ++ String.mk (rem'.take p))) := by
  intro gas
  induction gas with
  | zero =>
      intro rem pos h
      have hr : rem = [] := List.eq_nil_of_length_eq_zero (by omega)
      subst hr
      exact Or.inl ⟨[], rfl, rfl, rfl⟩
  | succ gas ih =>
      intro rem pos h
      cases hfm : findMatch rem with
      | none =>
          by_cases hr : rem = []
          · subst hr
            exact Or.inl ⟨[], by simp [lexLoop, findMatch], rfl,
              by simp [lexLoop, findMatch]⟩
          · right
            refine ⟨rem, rem.length, .refl rem, List.length_pos.2 hr, le_refl _,
              fun q _ => findMatch_none rem hfm q, Or.inl rfl, ?_, ?_⟩
            all_goals
              unfold lexLoop
              rw [hfm, List.take_length]
              simp [hr]
      | some x =>
          obtain ⟨p, k, len⟩ := x
          by_cases hp : p = 0
          · subst hp
            have halt : altMatch rem = some (k, len) := by
              have h1 := (findMatch_some rem 0 k len hfm).1
              simpa using h1
            have hb := altMatch_bound rem k len halt
            have hlen : (rem.drop len).length ≤ gas := by
              rw [List.length_drop]; omega
            rcases ih (rem.drop len) (pos + len) hlen with
              ⟨toks, hok, hcat, hokf⟩ |
              ⟨rem', p', hcons, hp0, hple, hnone, hend, herr, herrf⟩
            · left
              refine ⟨{ type := k, position := pos,
                        content := String.mk (rem.take len) } :: toks, ?_, ?_, ?_⟩
              · unfold lexLoop
                rw [hfm]
                simp only [if_pos rfl]
                rw [hok]
                simp
              · simp only [List.flatMap_cons]
                rw [hcat]
                show rem.take len ++ rem.drop len = rem
                exact List.take_append_drop len rem
              · unfold lexLoop
                rw [hfm]
                simp only [if_pos rfl]
                rw [hokf]
                by_cases hk : k = TokKind.ws
                · subst hk
                  simp [List.filter_cons]
                · simp [List.filter_cons, hk]
            · right
              refine ⟨rem', p', .step k len halt hcons, hp0, hple, hnone, hend,
                ?_, ?_⟩
              · unfold lexLoop
                rw [hfm]
                simp only [if_pos rfl]
                rw [herr]
                simp
              · unfold lexLoop
                rw [hfm]
                simp only [if_pos rfl]
                rw [herrf]
                simp
          · right
            obtain ⟨h1, h2⟩ := findMatch_some rem p k len hfm
            have hpl : p < rem.length := by
              by_contra hge
              rw [List.drop_eq_nil_of_le (by omega)] at h1
              rw [altMatch_nil] at h1
              exact absurd h1 (by simp)
            refine ⟨rem, p, .refl rem, Nat.pos_of_ne_zero hp, by omega, h2,
              Or.inr ⟨k, len, h1⟩, ?_, ?_⟩
            all_goals
              unfold lexLoop
              rw [hfm]
              simp only [if_neg hp]

/-- C6.  For every input string, `lex` either succeeds — and then the
concatenation of the matched token texts, whitespace/comment runs included,
reconstructs the source, with the `includeWs := false` run returning the
same stream minus the `ws` tokens (never a partial stream) — or both runs
fail with the same error string `I don't understand: <slice>`, where the
slice is the first run of characters the matcher cannot advance past: a
nonempty segment starting at a position reached by consuming matches, with
no match starting anywhere inside it, ending at the end of the input or at
the next position where a match starts. -/
theorem lex_round_trip_or_error (src : String) :
    (∃ toks, lex src true = .ok toks
      ∧ concatContents toks = src
      ∧ lex src false = .ok (toks.filter (fun t => t.type != TokKind.ws)))
    ∨ (∃ rem' p, LexConsumes src.toList rem'
        ∧ 0 < p ∧ p ≤ rem'.length
        ∧ (∀ q, q < p → altMatch (rem'.drop q) = none)
        ∧ (p = rem'.length ∨ ∃ k len, altMatch (rem'.drop p) = some (k, len))
        ∧ lex src true = .error ("I don't understand: " ++ String.mk (rem'.take p))
        ∧ lex src false
            = .error ("I don't understand: " ++ String.mk (rem'.take p))) := by
  rcases lexLoop_covers src.toList.length src.toList 0 (le_refl _) with
    ⟨toks, hok, hcat, hokf⟩ | hr
  · left
    refine ⟨toks, hok, ?_, hokf⟩
    show String.mk (toks.flatMap (fun t => t.content.toList)) = src
    rw [hcat]
    rfl
  · exact Or.inr hr

end TsParserThing
